import Mathlib

/-!
Shallow embedding of the leveldb sorted-table writer (`table/table_builder.cc`)
and its two-level iterator (`table/two_level_iterator.cc`).

External collaborators that live outside the two translated source files
(block encoder, snappy, crc32c values, varint coding, footer codec, filter
block builder, comparator shortening functions) are kept abstract as fields
of an `Env` record; the two translated files only ever use them as black
boxes, so every theorem below is universally quantified over `Env`.

Bytes are modelled as `Nat`, byte strings as `List Nat`, and the writable
file as the list of bytes successfully appended so far together with a
failure script that decides the outcome of each file operation (append or
flush), mirroring an environment in which any `Append` may fail.
-/

namespace LevelDB

/-- Status values returned by builder operations.  `ok` corresponds to
`Status::OK()`, `invalidArgument` to `Status::InvalidArgument(...)`, and
`ioErr e` to a failed file operation carrying an error identity `e` so that
distinct failures are distinguishable. -/
inductive Status where
  | ok : Status
  | invalidArgument : Status
  | ioErr : Nat → Status
deriving DecidableEq, Repr

/-- Status.isOk mirrors `Status::ok()`. -/
def Status.isOk : Status → Bool
  | .ok => true
  | _ => false

/-- CompressionType from `leveldb/options.h`: `kNoCompression = 0x0`,
`kSnappyCompression = 0x1`. -/
inductive CompressionType where
  | kNoCompression : CompressionType
  | kSnappyCompression : CompressionType
deriving DecidableEq, Repr

/-- Numeric value of a compression type, used as the one-byte block tag. -/
def CompressionType.tag : CompressionType → Nat
  | .kNoCompression => 0
  | .kSnappyCompression => 1

/-- Options (the fields of `leveldb::Options` that the two translated files
read).  The comparator is identified by a tag, modelling the pointer
comparison `options.comparator != rep_->options.comparator` in
`ChangeOptions`. -/
structure Options where
  comparator : Nat
  block_restart_interval : Nat
  block_size : Nat
  compression : CompressionType
  filter_policy : Bool
deriving DecidableEq, Repr

/-- BlockHandle: an (offset, size) locator for a framed block. -/
structure BlockHandle where
  offset : Nat
  size : Nat
deriving DecidableEq, Repr

/-- kBlockTrailerSize from `table/format.h`: 1-byte type + 32-bit crc. -/
def kBlockTrailerSize : Nat := 5

/-- WritableFile model: the bytes successfully appended so far, plus a
script assigning an outcome to each successive file operation (`none` =
success, `some e` = failure with error `e`); an exhausted script means
every further operation succeeds. -/
structure File where
  written : List Nat
  script : List (Option Nat)
deriving DecidableEq, Repr

/-- File.append models `WritableFile::Append`: on success the bytes are
appended, on failure nothing is written; either way one script slot is
consumed. -/
def File.append (f : File) (bytes : List Nat) : Status × File :=
  match f.script with
  | [] => (.ok, { f with written := f.written ++ bytes })
  | none :: rest => (.ok, { written := f.written ++ bytes, script := rest })
  | some e :: rest => (.ioErr e, { f with script := rest })

/-- File.doFlush models `WritableFile::Flush`: no bytes move, one script
slot decides the returned status. -/
def File.doFlush (f : File) : Status × File :=
  match f.script with
  | [] => (.ok, f)
  | none :: rest => (.ok, { f with script := rest })
  | some e :: rest => (.ioErr e, { f with script := rest })

/-- Modelled from the spec: `crc32c::Mask` of `util/crc32c.h` (not under
`src/`), specified as `mask(c) = ((c >> 15) | (c << 17)) + 0xa282ead8`
computed modulo 2^32 on a 32-bit value. -/
def crc32cMask (c : Nat) : Nat :=
  (((c / 2 ^ 15) ||| ((c * 2 ^ 17) % 2 ^ 32)) + 0xa282ead8) % 2 ^ 32

/-- Modelled from the spec: `EncodeFixed32` of `util/coding.h` (not under
`src/`), a 32-bit little-endian fixed-width encoding. -/
def encodeFixed32 (v : Nat) : List Nat :=
  [v % 256, v / 2 ^ 8 % 256, v / 2 ^ 16 % 256, v / 2 ^ 24 % 256]

/-- Env packages the external collaborators of the two translated files.
`crc bs` stands for `crc32c::Extend(crc32c::Value(init), tail)` where
`bs = init ++ tail`, i.e. the crc32c of the whole byte string; `snappy`
returns `some compressed` when `port::Snappy_Compress` succeeds and `none`
when snappy is unsupported or fails; `blockFinish` is
`BlockBuilder::Finish` (the encoded bytes of the accumulated entries under
given options); `sizeEstimate` is `BlockBuilder::CurrentSizeEstimate`;
`sep` and `shortSucc` are the comparator's `FindShortestSeparator` and
`FindShortSuccessor`; `encHandle` is `BlockHandle::EncodeTo`;
`footerBytes` is `Footer::EncodeTo`; `filterFinish` is
`FilterBlockBuilder::Finish` as a function of the recorded block starts
and keys; `filterName` is the metaindex key "filter." + policy name. -/
structure Env where
  crc : List Nat → Nat
  snappy : List Nat → Option (List Nat)
  blockFinish : Options → List (List Nat × List Nat) → List Nat
  sizeEstimate : List (List Nat × List Nat) → Nat
  sep : List Nat → List Nat → List Nat
  shortSucc : List Nat → List Nat
  encHandle : BlockHandle → List Nat
  footerBytes : BlockHandle → BlockHandle → List Nat
  filterFinish : List Nat → List (List Nat) → List Nat
  filterName : List Nat

/-- Rep is `TableBuilder::Rep`.  Block builders are represented by their
accumulated entry lists; the bytes they would emit are produced by
`Env.blockFinish`.  The fields `numDataBlocks`, `sepCount`, `succCount`
and `writtenIndex` are ghost instrumentation recording, respectively, how
many data blocks were fully written, how many index entries were added via
the separator path in `Add`, how many were added via the short-successor
path in `Finish`, and the entry list of the index block at the moment it
was written (the in-memory builder is reset right after); they influence
no behaviour. -/
structure Rep where
  options : Options
  index_block_options : Options
  file : File
  offset : Nat
  status : Status
  data_block : List (List Nat × List Nat)
  index_block : List (List Nat × List Nat)
  last_key : List Nat
  num_entries : Nat
  closed : Bool
  filter_present : Bool
  filter_keys : List (List Nat)
  filter_starts : List Nat
  pending_index_entry : Bool
  pending_handle : BlockHandle
  compressed_output : List Nat
  numDataBlocks : Nat
  sepCount : Nat
  succCount : Nat
  writtenIndex : List (List Nat × List Nat)
deriving DecidableEq, Repr

/-- initRep is the `Rep` constructor together with the `TableBuilder`
constructor body: index block options copy the options with
`block_restart_interval` forced to 1, the filter block builder is created
iff a filter policy is present, and when present `StartBlock(0)` is
invoked immediately. -/
def initRep (opts : Options) (script : List (Option Nat)) : Rep :=
  { options := opts
    index_block_options := { opts with block_restart_interval := 1 }
    file := { written := [], script := script }
    offset := 0
    status := .ok
    data_block := []
    index_block := []
    last_key := []
    num_entries := 0
    closed := false
    filter_present := opts.filter_policy
    filter_keys := []
    filter_starts := if opts.filter_policy then [0] else []
    pending_index_entry := false
    pending_handle := ⟨0, 0⟩
    compressed_output := []
    numDataBlocks := 0
    sepCount := 0
    succCount := 0
    writtenIndex := [] }

/-- WriteRawBlock (`table_builder.cc:282`): set the handle to the current
offset and payload size, append the payload, and on success append the
5-byte trailer `tag :: fixed32(mask(crc(payload ++ [tag])))`; when both
appends succeed advance the offset by payload size + 5. -/
def WriteRawBlock (env : Env) (block_contents : List Nat) (tag : Nat) (r : Rep) :
    BlockHandle × Rep :=
  let handle : BlockHandle := ⟨r.offset, block_contents.length⟩
  let a1 := r.file.append block_contents
  let r1 := { r with status := a1.1, file := a1.2 }
  if a1.1.isOk then
    let trailer := tag :: encodeFixed32 (crc32cMask (env.crc (block_contents ++ [tag])))
    let a2 := r1.file.append trailer
    let r2 := { r1 with status := a2.1, file := a2.2 }
    if a2.1.isOk then
      (handle, { r2 with offset := r2.offset + block_contents.length + kBlockTrailerSize })
    else (handle, r2)
  else (handle, r1)

/-- snappyChoice is the `kSnappyCompression` arm of the switch in
`WriteBlock` (`table_builder.cc:243`): use the compressed bytes with tag 1
when compression succeeds and `compressed.size() < raw.size() -
raw.size() / 8`, otherwise the raw bytes with tag 0. -/
def snappyChoice (env : Env) (raw : List Nat) : List Nat × Nat :=
  match env.snappy raw with
  | some compressed =>
      if compressed.length < raw.length - raw.length / 8 then (compressed, 1)
      else (raw, 0)
  | none => (raw, 0)

/-- snappyChoiceSpec follows the spec's words instead of the code's
integer test: emit compressed with tag 1 iff the compressor succeeds and
`compressed.len < raw.len * 7/8` as an exact rational comparison
(`8 * compressed.len < 7 * raw.len`). -/
def snappyChoiceSpec (env : Env) (raw : List Nat) : List Nat × Nat :=
  match env.snappy raw with
  | some compressed =>
      if 8 * compressed.length < 7 * raw.length then (compressed, 1)
      else (raw, 0)
  | none => (raw, 0)

/-- writeBlockBytes is `WriteBlock` (`table_builder.cc:225`) applied to
the finished bytes of a block: choose contents and tag from the configured
compression, write them through `WriteRawBlock`, and clear the compression
scratch buffer.  (Resetting the passed block builder is done at each call
site, which the source performs inside `WriteBlock`.) -/
def writeBlockBytes (env : Env) (raw : List Nat) (r : Rep) : BlockHandle × Rep :=
  let ct :=
    match r.options.compression with
    | .kNoCompression => (raw, 0)
    | .kSnappyCompression => snappyChoice env raw
  let w := WriteRawBlock env ct.1 ct.2 r
  (w.1, { w.2 with compressed_output := [] })

/-- Flush (`table_builder.cc:201`): no-op when the status is non-OK or the
data block is empty; otherwise write the data block (which resets it and
fills `pending_handle`), and on success mark the index entry pending and
flush the file; finally, when a filter block builder exists, start a new
filter block at the current offset. -/
def Flush (env : Env) (r : Rep) : Rep :=
  if r.status.isOk = false then r
  else if r.data_block.isEmpty then r
  else
    let raw := env.blockFinish r.options r.data_block
    let w := writeBlockBytes env raw r
    let r1 := { w.2 with pending_handle := w.1, data_block := [] }
    let r2 :=
      if r1.status.isOk then
        let fr := r1.file.doFlush
        { r1 with pending_index_entry := true, status := fr.1, file := fr.2,
                  numDataBlocks := r1.numDataBlocks + 1 }
      else r1
    if r2.filter_present then { r2 with filter_starts := r2.filter_starts ++ [r2.offset] }
    else r2

/-- Add (`table_builder.cc:152`): no-op when the status is non-OK;
otherwise drain a pending index entry through `FindShortestSeparator`
(which rewrites `last_key` in place), feed the filter, record the key,
append the entry to the data block, and flush when the size estimate
reaches `block_size`. -/
def Add (env : Env) (key value : List Nat) (r : Rep) : Rep :=
  if r.status.isOk = false then r
  else
    let r1 :=
      if r.pending_index_entry then
        let sk := env.sep r.last_key key
        { r with last_key := sk,
                 index_block := r.index_block ++ [(sk, env.encHandle r.pending_handle)],
                 pending_index_entry := false,
                 sepCount := r.sepCount + 1 }
      else r
    let r2 :=
      if r1.filter_present then { r1 with filter_keys := r1.filter_keys ++ [key] }
      else r1
    let r3 := { r2 with last_key := key, num_entries := r2.num_entries + 1,
                        data_block := r2.data_block ++ [(key, value)] }
    if r3.options.block_size ≤ env.sizeEstimate r3.data_block then Flush env r3
    else r3

/-- ChangeOptions (`table_builder.cc:126`): reject a comparator change
with InvalidArgument leaving everything untouched; otherwise adopt the new
options and force the index block options' restart interval back to 1. -/
def ChangeOptions (opts : Options) (r : Rep) : Status × Rep :=
  if opts.comparator = r.options.comparator then
    (.ok, { r with options := opts,
                   index_block_options := { opts with block_restart_interval := 1 } })
  else (.invalidArgument, r)

/-- finishFilterPhase: the filter block write of `Finish`
(`table_builder.cc:327`): `if (ok() && r->filter_block != nullptr)` write
the finished filter bytes raw with the no-compression tag. -/
def finishFilterPhase (env : Env) (r : Rep) : BlockHandle × Rep :=
  if r.status.isOk && r.filter_present then
    WriteRawBlock env (env.filterFinish r.filter_starts r.filter_keys) 0 r
  else (⟨0, 0⟩, r)

/-- finishMetaPhase: the metaindex block write of `Finish`
(`table_builder.cc:333`): a fresh block builder over the current options,
holding one `filter.NAME -> handle` entry when a filter is present, written
through `WriteBlock`. -/
def finishMetaPhase (env : Env) (filterHandle : BlockHandle) (r : Rep) :
    BlockHandle × Rep :=
  if r.status.isOk then
    let metaEntries :=
      if r.filter_present then [(env.filterName, env.encHandle filterHandle)] else []
    writeBlockBytes env (env.blockFinish r.options metaEntries) r
  else (⟨0, 0⟩, r)

/-- finishIndexPhase: the index block write of `Finish`
(`table_builder.cc:349`): drain a still-pending index entry through
`FindShortSuccessor` (which rewrites `last_key` in place), then write the
index block through `WriteBlock`, which resets it; the ghost
`writtenIndex` captures the entry list as written. -/
def finishIndexPhase (env : Env) (r : Rep) : BlockHandle × Rep :=
  if r.status.isOk then
    let r5 :=
      if r.pending_index_entry then
        let sk := env.shortSucc r.last_key
        { r with last_key := sk,
                 index_block := r.index_block ++ [(sk, env.encHandle r.pending_handle)],
                 pending_index_entry := false,
                 succCount := r.succCount + 1 }
      else r
    let w := writeBlockBytes env (env.blockFinish r5.index_block_options r5.index_block) r5
    (w.1, { w.2 with writtenIndex := r5.index_block, index_block := [] })
  else (⟨0, 0⟩, r)

/-- finishFooterPhase: the footer write of `Finish`
(`table_builder.cc:361`): append the encoded footer and advance the
offset on success. -/
def finishFooterPhase (env : Env) (mh ih : BlockHandle) (r : Rep) : Rep :=
  if r.status.isOk then
    let fb := env.footerBytes mh ih
    let a := r.file.append fb
    let ra := { r with status := a.1, file := a.2 }
    if a.1.isOk then { ra with offset := ra.offset + fb.length } else ra
  else r

/-- Finish (`table_builder.cc:318`): final flush, mark closed, then —
each phase guarded by an OK status — write the filter block raw and
uncompressed, the metaindex block, the index block (draining a still
pending index entry through `FindShortSuccessor` first), and the footer.
Returns the sticky status. -/
def Finish (env : Env) (r0 : Rep) : Status × Rep :=
  let r1 := Flush env r0
  let r2 := { r1 with closed := true }
  let fres := finishFilterPhase env r2
  let mres := finishMetaPhase env fres.1 fres.2
  let ires := finishIndexPhase env mres.2
  let r7 := finishFooterPhase env mres.1 ires.1 ires.2
  (r7.status, r7)

/-- TwoLevelStatus: the three status sources of `TwoLevelIterator`:
`index_iter_.status()`, `data_iter_.status()` when a data iterator exists
(`data_iter_.iter() != nullptr`), and the sticky `status_` accumulated by
`SaveError` from discarded data iterators. -/
structure TwoLevelStatus where
  indexStatus : Status
  dataStatus : Option Status
  sticky : Status
deriving DecidableEq, Repr

/-- statusFn is `TwoLevelIterator::status()`
(`two_level_iterator.cc:41`): the index iterator status when non-OK, else
the data iterator status when a data iterator exists and its status is
non-OK, else the sticky status. -/
def TwoLevelStatus.statusFn (s : TwoLevelStatus) : Status :=
  if s.indexStatus.isOk = false then s.indexStatus
  else
    match s.dataStatus with
    | some d => if d.isOk = false then d else s.sticky
    | none => s.sticky

/-- saveError is `TwoLevelIterator::SaveError`: record `s` in the sticky
status only when the sticky status is still OK and `s` is not. -/
def saveError (sticky s : Status) : Status :=
  if sticky.isOk && (s.isOk = false) then s else sticky

/-- firstNonOk follows the spec's words: the first non-OK status in a
candidate list, OK when all are OK. -/
def firstNonOk : List Status → Status
  | [] => .ok
  | s :: rest => if s.isOk then firstNonOk rest else s

/-- Candidate list of statuses in the order the spec gives: index iterator
first, then the data iterator when one exists, then the sticky status. -/
def TwoLevelStatus.candidates (s : TwoLevelStatus) : List Status :=
  [s.indexStatus] ++ s.dataStatus.toList ++ [s.sticky]

/-- TwoLevelIter: positioning state of the two-level iterator over a
table.  The table is the index block's contents: a list of (separator key,
data block) pairs, each data block a list of (key, value) entries; keys
are modelled as naturals ordered by the comparator `≤`.  `idx` is the
index iterator's position (`none` = invalid); `data` is `none` when
`data_iter_.iter() == nullptr` and otherwise carries the block index that
produced the data iterator (standing for `data_block_handle_`) together
with the data iterator's position inside that block (`none` = invalid). -/
structure TwoLevelIter where
  table : List (Nat × List (Nat × Nat))
  idx : Option Nat
  data : Option (Nat × Option Nat)
deriving DecidableEq, Repr

/-- Separator key of block `i` of a table. -/
def sepAt (t : List (Nat × List (Nat × Nat))) (i : Nat) : Nat :=
  (t.getD i (0, [])).1

/-- Entry list of block `i` of a table. -/
def blockAt (t : List (Nat × List (Nat × Nat))) (i : Nat) : List (Nat × Nat) :=
  (t.getD i (0, [])).2

/-- Key of entry `p` of block `i` of a table. -/
def keyAt (t : List (Nat × List (Nat × Nat))) (i p : Nat) : Nat :=
  ((blockAt t i).getD p (0, 0)).1

/-- firstSat finds the position of the first element satisfying `p`,
modelling the `Seek` contract of the external block iterators: position at
the first entry whose key is at or past the target, invalid when none. -/
def firstSat (p : α → Bool) : List α → Option Nat
  | [] => none
  | a :: rest => if p a then some 0 else (firstSat p rest).map (· + 1)

/-- idxSeek is `index_iter_.Seek(target)`: the first index entry whose
separator key is `≥` the target. -/
def idxSeek (t : List (Nat × List (Nat × Nat))) (k : Nat) : Option Nat :=
  firstSat (fun b => decide (k ≤ b.1)) t

/-- blkSeek is `data_iter_.Seek(target)` inside one block: the first entry
whose key is `≥` the target. -/
def blkSeek (b : List (Nat × Nat)) (k : Nat) : Option Nat :=
  firstSat (fun e => decide (k ≤ e.1)) b

/-- idxNext is `index_iter_.Next()` from a valid position `i`: the
iterator moves to `i + 1` and is valid iff that is still in range. -/
def idxNext (len i : Nat) : Option Nat :=
  if i + 1 < len then some (i + 1) else none

/-- initDataBlock is `TwoLevelIterator::InitDataBlock`
(`two_level_iterator.cc:185`): drop the data iterator when the index
iterator is invalid; otherwise keep the current data iterator when it was
built from the same handle, else build a fresh (not yet positioned) one
from the block the index iterator points at. -/
def initDataBlock (s : TwoLevelIter) : TwoLevelIter :=
  match s.idx with
  | none => { s with data := none }
  | some i =>
      match s.data with
      | some d => if d.1 = i then s else { s with data := some (i, none) }
      | none => { s with data := some (i, none) }

/-- dataSeekTarget is `data_iter_.Seek(target)` applied to the current
data iterator. -/
def dataSeekTarget (s : TwoLevelIter) (k : Nat) : TwoLevelIter :=
  match s.data with
  | some d => { s with data := some (d.1, blkSeek (blockAt s.table d.1) k) }
  | none => s

/-- dataSeekToFirst is `data_iter_.SeekToFirst()` applied to the current
data iterator: position 0, invalid when the block is empty. -/
def dataSeekToFirst (s : TwoLevelIter) : TwoLevelIter :=
  match s.data with
  | some d =>
      { s with data := some (d.1, if (blockAt s.table d.1).isEmpty then none else some 0) }
  | none => s

/-- dataValid is `data_iter_.iter() != nullptr && data_iter_.Valid()`,
which is `TwoLevelIterator::Valid()`. -/
def dataValid (s : TwoLevelIter) : Bool :=
  match s.data with
  | some (_, some _) => true
  | _ => false

/-- currentKey is `TwoLevelIterator::key()`, meaningful when `dataValid`. -/
def currentKey (s : TwoLevelIter) : Nat :=
  match s.data with
  | some (i, some p) => keyAt s.table i p
  | _ => 0

/-- skipEmptyForward is `SkipEmptyDataBlocksForward`
(`two_level_iterator.cc:136`) with explicit fuel: while the data iterator
is missing or invalid, stop with a null data iterator when the index
iterator is invalid, else advance the index iterator, rebuild the data
iterator, and seek it to the first entry.  The loop advances the index
iterator on every iteration, so fuel `table.length + 1` always suffices
(proved below). -/
def skipEmptyForward (s : TwoLevelIter) : Nat → TwoLevelIter
  | 0 => s
  | fuel + 1 =>
      if dataValid s then s
      else
        match s.idx with
        | none => { s with data := none }
        | some i =>
            let s1 := { s with idx := idxNext s.table.length i }
            let s2 := initDataBlock s1
            let s3 := if s2.data.isSome then dataSeekToFirst s2 else s2
            skipEmptyForward s3 fuel

/-- Seek is `TwoLevelIterator::Seek` (`two_level_iterator.cc:99`):
`index_iter_.Seek(target)`, `InitDataBlock()`, `data_iter_.Seek(target)`
when a data iterator exists, then `SkipEmptyDataBlocksForward()`. -/
def Seek (s : TwoLevelIter) (k : Nat) : TwoLevelIter :=
  let s1 := { s with idx := idxSeek s.table k }
  let s2 := initDataBlock s1
  let s3 := if s2.data.isSome then dataSeekTarget s2 k else s2
  skipEmptyForward s3 (s3.table.length + 1)

/-- firstNonemptyFrom: the first block index `≥ j` holding at least one
entry, `none` when all blocks from `j` on are empty or out of range. -/
def firstNonemptyFrom (t : List (Nat × List (Nat × Nat))) (j : Nat) : Option Nat :=
  if h : j < t.length then
    if (blockAt t j).isEmpty then firstNonemptyFrom t (j + 1) else some j
  else none
termination_by t.length - j

/-- wfTable: the well-formedness a table written by the builder enjoys
(spec: the index key for block `i` is at or past every key in block `i`
and strictly before every key of later blocks, and each block holds
strictly increasing keys). -/
def wfTable (t : List (Nat × List (Nat × Nat))) : Prop :=
  (∀ i, i < t.length → ∀ p, p < (blockAt t i).length → keyAt t i p ≤ sepAt t i)
  ∧ (∀ j, j < t.length → ∀ i, i < j → ∀ p, p < (blockAt t j).length →
      sepAt t i < keyAt t j p)
  ∧ (∀ i, i < t.length → ∀ q, q < (blockAt t i).length → ∀ p, p < q →
      keyAt t i p < keyAt t i q)

/-- OffsetInv: the builder state keeps its offset at, or (after a failed
trailer append) below, the number of bytes successfully appended. -/
def OffsetInv (r : Rep) : Prop :=
  (r.status.isOk = true → r.offset = r.file.written.length)
  ∧ r.offset ≤ r.file.written.length

/-- CountInv: the index-entry bookkeeping invariant of an OK builder
state: pending entry plus emitted entries equal the number of written data
blocks, every emitted entry so far came from the separator path, a pending
entry implies an empty data block, and an empty data block without a
pending entry means no data block was written yet. -/
def CountInv (r : Rep) : Prop :=
  r.status.isOk = true →
    (r.index_block.length + (if r.pending_index_entry then 1 else 0) = r.numDataBlocks
     ∧ r.sepCount = r.index_block.length
     ∧ r.succCount = 0
     ∧ (r.pending_index_entry = true → r.data_block = [])
     ∧ (r.pending_index_entry = false → r.data_block = [] → r.numDataBlocks = 0))

/-- testEnv: a concrete environment used to evaluate the model on small
inputs. -/
def testEnv : Env :=
  { crc := fun bs => bs.foldl (· + ·) 0
    snappy := fun _ => none
    blockFinish := fun _ es => es.foldr (fun e acc => e.1 ++ e.2 ++ acc) []
    sizeEstimate := fun es => es.length
    sep := fun a _ => a
    shortSucc := fun a => a
    encHandle := fun h => [h.offset % 256, h.size % 256]
    footerBytes := fun _ _ => [0, 0]
    filterFinish := fun _ _ => [7]
    filterName := [102] }

/-- snappyEnv: testEnv with a compressor that always halves the input. -/
def snappyEnv : Env :=
  { testEnv with snappy := fun raw => some (raw.take (raw.length / 2)) }

/-- testOpts: concrete options with a block size too large to trigger
automatic flushes. -/
def testOpts : Options :=
  { comparator := 0
    block_restart_interval := 16
    block_size := 1000000
    compression := .kNoCompression
    filter_policy := false }

/-- failRep: a fresh builder with a filter policy, one buffered entry, and
a file whose next append fails. -/
def failRep : Rep :=
  { initRep { testOpts with filter_policy := true } [some 3] with
    data_block := [([1], [2])] }

/-- testTable: a small two-block table used to evaluate the iterator. -/
def testTable : List (Nat × List (Nat × Nat)) :=
  [(5, [(1, 10), (4, 11)]), (9, [(7, 12)])]

/-- BuildOp: the public mutating calls available while a builder is open. -/
inductive BuildOp where
  | addOp : List Nat → List Nat → BuildOp
  | flushOp : BuildOp
  | changeOp : Options → BuildOp

/-- One public call applied to the builder state. -/
def step (env : Env) (r : Rep) : BuildOp → Rep
  | .addOp k v => Add env k v r
  | .flushOp => Flush env r
  | .changeOp o => (ChangeOptions o r).2

/-- A sequence of public calls applied in order. -/
def runOps (env : Env) (r : Rep) : List BuildOp → Rep
  | [] => r
  | op :: rest => runOps env (step env r op) rest

theorem status_isOk_iff (s : Status) : s.isOk = true ↔ s = .ok := by
  cases s <;> simp [Status.isOk]

theorem status_isOk_false_iff (s : Status) : s.isOk = false ↔ s ≠ .ok := by
  cases s <;> simp [Status.isOk]

/-- C1: under snappy compression the compressed form is emitted with tag 1
iff the compressor succeeds and the compressed length is strictly below
7/8 of the raw length as an exact rational comparison (otherwise the raw
bytes go out with tag 0), because the integer test
`compressed.size() < raw.size() - raw.size()/8` decides exactly that
predicate for every pair of lengths. -/
theorem claim_C1_snappy_ratio :
    (∀ c r : Nat, c < r - r / 8 ↔ 8 * c < 7 * r)
    ∧ ∀ (env : Env) (raw : List Nat), snappyChoice env raw = snappyChoiceSpec env raw := by
  constructor
  · intro c r
    omega
  · intro env raw
    unfold snappyChoice snappyChoiceSpec
    cases h : env.snappy raw with
    | none => rfl
    | some compressed =>
        simp only
        split_ifs with h1 h2 h2 <;> first | rfl | (exfalso; omega)

/-- C7: ChangeOptions rejects a comparator change with InvalidArgument
leaving the stored options untouched; with the comparator unchanged it
returns OK, adopts the new options, and forces the index block options'
restart interval back to 1 — the value it also receives at
construction. -/
theorem claim_C7_changeOptions (opts : Options) (r : Rep) :
    (opts.comparator ≠ r.options.comparator →
        ChangeOptions opts r = (.invalidArgument, r))
    ∧ (opts.comparator = r.options.comparator →
        ChangeOptions opts r =
          (.ok, { r with options := opts,
                         index_block_options :=
                           { opts with block_restart_interval := 1 } }))
    ∧ ∀ (o : Options) (script : List (Option Nat)),
        (initRep o script).index_block_options.block_restart_interval = 1 := by
  refine ⟨?_, ?_, ?_⟩
  · intro h
    simp [ChangeOptions, h]
  · intro h
    simp [ChangeOptions, h]
  · intro o script
    rfl

/-- C7 witness: at concrete inputs, a comparator change is rejected
without touching the builder and a comparator-preserving change is
accepted. -/
theorem claim_C7_witness :
    ChangeOptions { testOpts with comparator := 1 } (initRep testOpts [])
        = (.invalidArgument, initRep testOpts [])
    ∧ (ChangeOptions { testOpts with block_size := 5 } (initRep testOpts [])).1 = .ok := by
  constructor
  · exact (claim_C7_changeOptions { testOpts with comparator := 1 }
      (initRep testOpts [])).1 (by decide)
  · have h := (claim_C7_changeOptions { testOpts with block_size := 5 }
      (initRep testOpts [])).2.1 (by decide)
    rw [h]

/-- C8: the two-level iterator's status() is the first non-OK status of,
in order, the index iterator's status, the data iterator's status when a
data iterator exists, and the sticky status; it is OK exactly when all
three are OK. -/
theorem claim_C8_status (s : TwoLevelStatus) :
    s.statusFn = firstNonOk s.candidates
    ∧ (s.statusFn = .ok ↔
        s.indexStatus = .ok
        ∧ (∀ d, s.dataStatus = some d → d = .ok)
        ∧ s.sticky = .ok) := by
  obtain ⟨a, d, c⟩ := s
  rcases d with _ | dd
  · cases a <;> cases c <;>
      simp [TwoLevelStatus.statusFn, TwoLevelStatus.candidates, firstNonOk, Status.isOk]
  · cases a <;> cases dd <;> cases c <;>
      simp [TwoLevelStatus.statusFn, TwoLevelStatus.candidates, firstNonOk, Status.isOk]

/-- C2: WriteRawBlock on an OK builder sets the out-handle to (current
offset, payload length); when both appends succeed the payload goes out
followed by the 5-byte trailer `tag || mask(crc32c(payload ++ [tag]))` in
little-endian, and the offset advances by exactly payload length + 5. -/
theorem claim_C2_writeRawBlock (env : Env) (r : Rep) (bytes : List Nat) (tag : Nat)
    (hok : r.status = .ok) :
    (WriteRawBlock env bytes tag r).1 = ⟨r.offset, bytes.length⟩
    ∧ ((r.file.script.take 2).all Option.isNone = true →
        (WriteRawBlock env bytes tag r).2.file.written
            = r.file.written ++ bytes
              ++ (tag :: encodeFixed32 (crc32cMask (env.crc (bytes ++ [tag]))))
        ∧ (tag :: encodeFixed32 (crc32cMask (env.crc (bytes ++ [tag])))).length
            = kBlockTrailerSize
        ∧ (WriteRawBlock env bytes tag r).2.offset
            = r.offset + bytes.length + kBlockTrailerSize
        ∧ (WriteRawBlock env bytes tag r).2.status = .ok) := by
  constructor
  · simp only [WriteRawBlock]
    split_ifs <;> rfl
  · intro hscript
    rcases hs : r.file.script with _ | ⟨o1, rest1⟩
    · simp [WriteRawBlock, File.append, hs, Status.isOk, encodeFixed32,
        kBlockTrailerSize, List.append_assoc]
    · rcases o1 with _ | e1
      · rcases hr : rest1 with _ | ⟨o2, rest2⟩
        · simp [WriteRawBlock, File.append, hs, hr, Status.isOk, encodeFixed32,
            kBlockTrailerSize, List.append_assoc]
        · rcases o2 with _ | e2
          · simp [WriteRawBlock, File.append, hs, hr, Status.isOk, encodeFixed32,
              kBlockTrailerSize, List.append_assoc]
          · rw [hs, hr] at hscript
            simp [List.all_cons] at hscript
      · rw [hs] at hscript
        simp [List.all_cons] at hscript

/-- C2 witness: writing two payload bytes into a fresh builder advances
the offset to 7 and the file holds payload plus 5-byte trailer. -/
theorem claim_C2_witness :
    (WriteRawBlock testEnv [3, 4] 0 (initRep testOpts [])).2.offset = 7
    ∧ (WriteRawBlock testEnv [3, 4] 0 (initRep testOpts [])).2.file.written.length = 7 := by
  have h := claim_C2_writeRawBlock testEnv (initRep testOpts []) [3, 4] 0 rfl
  have h2 := h.2 (by decide)
  constructor
  · rw [h2.2.2.1]
    decide
  · rw [h2.1]
    decide

theorem flush_of_empty (env : Env) (r : Rep) (h : r.data_block.isEmpty = true) :
    Flush env r = r := by
  unfold Flush
  split_ifs with h1 <;> rfl

theorem flush_bad (env : Env) (r : Rep) (h : r.status.isOk = false) :
    Flush env r = r := by
  unfold Flush
  rw [h]
  rfl

theorem add_bad (env : Env) (k v : List Nat) (r : Rep) (h : r.status.isOk = false) :
    Add env k v r = r := by
  unfold Add
  rw [h]
  rfl

theorem flush_data_block_empty (env : Env) (r : Rep) (h : r.status.isOk = true) :
    (Flush env r).data_block = [] := by
  by_cases h2 : r.data_block.isEmpty
  · rw [flush_of_empty env r h2]
    exact List.isEmpty_iff.mp h2
  · simp only [Flush, h, Bool.true_eq_false, if_false]
    rw [if_neg h2]
    split_ifs <;> rfl

/-- C6: Flush on an OK builder with an empty data block is a no-op, and on
any builder state Flush is idempotent. -/
theorem claim_C6_flush (env : Env) (r : Rep) :
    (r.status = .ok → r.data_block = [] → Flush env r = r)
    ∧ Flush env (Flush env r) = Flush env r := by
  constructor
  · intro h1 h2
    exact flush_of_empty env r (by rw [h2]; rfl)
  · by_cases hs : r.status.isOk
    · by_cases he : r.data_block.isEmpty
      · rw [flush_of_empty env r he, flush_of_empty env r he]
      · by_cases hs2 : (Flush env r).status.isOk
        · exact flush_of_empty env (Flush env r)
            (by rw [flush_data_block_empty env r hs]; rfl)
        · exact flush_bad env (Flush env r) (by simpa using hs2)
    · rw [flush_bad env r (by simpa using hs), flush_bad env r (by simpa using hs)]

/-- C6 witness: Flush on a fresh builder is a no-op. -/
theorem claim_C6_witness :
    Flush testEnv (initRep testOpts []) = initRep testOpts [] :=
  (claim_C6_flush testEnv (initRep testOpts [])).1 rfl rfl

theorem writeRawBlock_frame (env : Env) (c : List Nat) (tg : Nat) (r : Rep) :
    (WriteRawBlock env c tg r).2.pending_index_entry = r.pending_index_entry
    ∧ (WriteRawBlock env c tg r).2.data_block = r.data_block
    ∧ (WriteRawBlock env c tg r).2.index_block = r.index_block
    ∧ (WriteRawBlock env c tg r).2.last_key = r.last_key
    ∧ (WriteRawBlock env c tg r).2.num_entries = r.num_entries
    ∧ (WriteRawBlock env c tg r).2.closed = r.closed
    ∧ (WriteRawBlock env c tg r).2.filter_present = r.filter_present
    ∧ (WriteRawBlock env c tg r).2.filter_keys = r.filter_keys
    ∧ (WriteRawBlock env c tg r).2.filter_starts = r.filter_starts
    ∧ (WriteRawBlock env c tg r).2.pending_handle = r.pending_handle
    ∧ (WriteRawBlock env c tg r).2.numDataBlocks = r.numDataBlocks
    ∧ (WriteRawBlock env c tg r).2.sepCount = r.sepCount
    ∧ (WriteRawBlock env c tg r).2.succCount = r.succCount
    ∧ (WriteRawBlock env c tg r).2.writtenIndex = r.writtenIndex
    ∧ (WriteRawBlock env c tg r).2.options = r.options
    ∧ (WriteRawBlock env c tg r).2.index_block_options = r.index_block_options := by
  simp only [WriteRawBlock]
  split_ifs <;> simp

theorem writeRawBlock_offset_of_bad (env : Env) (c : List Nat) (tg : Nat) (r : Rep) :
    (WriteRawBlock env c tg r).2.status.isOk = false →
    (WriteRawBlock env c tg r).2.offset = r.offset := by
  simp only [WriteRawBlock]
  split_ifs with h1 h2 <;> intro h <;> simp_all

theorem writeBlockBytes_eq (env : Env) (raw : List Nat) (r : Rep) :
    ∃ c tg, writeBlockBytes env raw r
      = ((WriteRawBlock env c tg r).1,
         { (WriteRawBlock env c tg r).2 with compressed_output := [] }) := by
  cases h : r.options.compression with
  | kNoCompression =>
      refine ⟨raw, 0, ?_⟩
      simp [writeBlockBytes, h]
  | kSnappyCompression =>
      refine ⟨(snappyChoice env raw).1, (snappyChoice env raw).2, ?_⟩
      simp [writeBlockBytes, h]

theorem writeBlockBytes_frame (env : Env) (raw : List Nat) (r : Rep) :
    (writeBlockBytes env raw r).2.pending_index_entry = r.pending_index_entry
    ∧ (writeBlockBytes env raw r).2.data_block = r.data_block
    ∧ (writeBlockBytes env raw r).2.index_block = r.index_block
    ∧ (writeBlockBytes env raw r).2.last_key = r.last_key
    ∧ (writeBlockBytes env raw r).2.num_entries = r.num_entries
    ∧ (writeBlockBytes env raw r).2.closed = r.closed
    ∧ (writeBlockBytes env raw r).2.filter_present = r.filter_present
    ∧ (writeBlockBytes env raw r).2.filter_keys = r.filter_keys
    ∧ (writeBlockBytes env raw r).2.filter_starts = r.filter_starts
    ∧ (writeBlockBytes env raw r).2.pending_handle = r.pending_handle
    ∧ (writeBlockBytes env raw r).2.numDataBlocks = r.numDataBlocks
    ∧ (writeBlockBytes env raw r).2.sepCount = r.sepCount
    ∧ (writeBlockBytes env raw r).2.succCount = r.succCount
    ∧ (writeBlockBytes env raw r).2.writtenIndex = r.writtenIndex
    ∧ (writeBlockBytes env raw r).2.options = r.options
    ∧ (writeBlockBytes env raw r).2.index_block_options = r.index_block_options := by
  obtain ⟨c, tg, heq⟩ := writeBlockBytes_eq env raw r
  rw [heq]
  exact writeRawBlock_frame env c tg r

theorem writeBlockBytes_offset_of_bad (env : Env) (raw : List Nat) (r : Rep) :
    (writeBlockBytes env raw r).2.status.isOk = false →
    (writeBlockBytes env raw r).2.offset = r.offset := by
  obtain ⟨c, tg, heq⟩ := writeBlockBytes_eq env raw r
  rw [heq]
  exact writeRawBlock_offset_of_bad env c tg r

theorem flush_write_failure_char (env : Env) (r : Rep)
    (hok : r.status.isOk = true) (hne : r.data_block.isEmpty = false)
    (hfail : (writeBlockBytes env (env.blockFinish r.options r.data_block) r).2.status.isOk
        = false) :
    Flush env r =
      (if (writeBlockBytes env (env.blockFinish r.options r.data_block) r).2.filter_present
          then
        { (writeBlockBytes env (env.blockFinish r.options r.data_block) r).2 with
          pending_handle := (writeBlockBytes env (env.blockFinish r.options r.data_block) r).1,
          data_block := [],
          filter_starts :=
            (writeBlockBytes env (env.blockFinish r.options r.data_block) r).2.filter_starts
              ++ [(writeBlockBytes env (env.blockFinish r.options r.data_block) r).2.offset] }
      else
        { (writeBlockBytes env (env.blockFinish r.options r.data_block) r).2 with
          pending_handle := (writeBlockBytes env (env.blockFinish r.options r.data_block) r).1,
          data_block := [] }) := by
  simp only [Flush, hok, Bool.true_eq_false, if_false]
  rw [if_neg (by simp [hne])]
  simp only [hfail, Bool.false_eq_true, if_false]

/-- C10: on a Flush whose block write fails, the pending index entry stays
clear and the file-level Flush is skipped (the file is exactly as the
failed block write left it), yet the filter builder's StartBlock is still
invoked with the unadvanced offset, exactly as on a successful flush. -/
theorem claim_C10_flush_write_failure (env : Env) (r : Rep)
    (hok : r.status.isOk = true) (hne : r.data_block.isEmpty = false)
    (hp : r.pending_index_entry = false) (hf : r.filter_present = true)
    (hfail : (writeBlockBytes env (env.blockFinish r.options r.data_block) r).2.status.isOk
        = false) :
    (Flush env r).pending_index_entry = false
    ∧ (Flush env r).offset = r.offset
    ∧ (Flush env r).filter_starts = r.filter_starts ++ [r.offset]
    ∧ (Flush env r).file
        = (writeBlockBytes env (env.blockFinish r.options r.data_block) r).2.file := by
  have hfr := writeBlockBytes_frame env (env.blockFinish r.options r.data_block) r
  have hoff := writeBlockBytes_offset_of_bad env (env.blockFinish r.options r.data_block) r hfail
  rw [flush_write_failure_char env r hok hne hfail]
  rw [if_pos (by rw [hfr.2.2.2.2.2.2.1]; exact hf)]
  refine ⟨?_, ?_, ?_, ?_⟩
  · show (writeBlockBytes env (env.blockFinish r.options r.data_block) r).2.pending_index_entry
      = false
    rw [hfr.1]
    exact hp
  · exact hoff
  · show (writeBlockBytes env (env.blockFinish r.options r.data_block) r).2.filter_starts
        ++ [(writeBlockBytes env (env.blockFinish r.options r.data_block) r).2.offset]
      = r.filter_starts ++ [r.offset]
    rw [hfr.2.2.2.2.2.2.2.2.1, hoff]
  · rfl

/-- C10 witness: with a filter policy, one buffered entry and a failing
append, Flush records a StartBlock at the unadvanced offset 0. -/
theorem claim_C10_witness :
    (Flush testEnv failRep).filter_starts = failRep.filter_starts ++ [failRep.offset]
    ∧ (Flush testEnv failRep).pending_index_entry = false := by
  have h := claim_C10_flush_write_failure testEnv failRep (by decide) (by decide)
    (by decide) (by decide) (by decide)
  exact ⟨h.2.2.1, h.1⟩

theorem changeOptions_snd_status (opts : Options) (r : Rep) :
    ((ChangeOptions opts r).2).status = r.status := by
  unfold ChangeOptions
  split_ifs <;> rfl

theorem finish_bad (env : Env) (r : Rep) (h : r.status.isOk = false) :
    Finish env r = (r.status, { r with closed := true }) := by
  simp only [Finish, flush_bad env r h]
  simp [finishFilterPhase, finishMetaPhase, finishIndexPhase, finishFooterPhase, h]

theorem runOps_bad (env : Env) (ops : List BuildOp) (r : Rep) (h : r.status.isOk = false) :
    (runOps env r ops).status = r.status := by
  induction ops generalizing r with
  | nil => rfl
  | cons op rest ih =>
      cases op with
      | addOp k v =>
          rw [runOps, step, add_bad env k v r h]
          exact ih r h
      | flushOp =>
          rw [runOps, step, flush_bad env r h]
          exact ih r h
      | changeOp o =>
          rw [runOps, step]
          have h2 : ((ChangeOptions o r).2).status.isOk = false := by
            rw [changeOptions_snd_status]
            exact h
          rw [ih _ h2, changeOptions_snd_status]

/-- C4: once the builder status is non-OK, Add and Flush are identities on
the whole builder state (in particular nothing further reaches the file),
no later operation overwrites the status, and Finish returns the very
error stored when the status first went non-OK while only marking the
builder closed. -/
theorem claim_C4_sticky (env : Env) (r : Rep) (hbad : r.status.isOk = false) :
    (∀ k v, Add env k v r = r)
    ∧ Flush env r = r
    ∧ (∀ opts, ((ChangeOptions opts r).2).status = r.status)
    ∧ (∀ ops, (runOps env r ops).status = r.status)
    ∧ (∀ ops, (Finish env (runOps env r ops)).1 = r.status)
    ∧ Finish env r = (r.status, { r with closed := true }) := by
  refine ⟨fun k v => add_bad env k v r hbad, flush_bad env r hbad,
    fun opts => changeOptions_snd_status opts r,
    fun ops => runOps_bad env ops r hbad, fun ops => ?_, finish_bad env r hbad⟩
  have h2 : (runOps env r ops).status.isOk = false := by
    rw [runOps_bad env ops r hbad]
    exact hbad
  rw [finish_bad env (runOps env r ops) h2, runOps_bad env ops r hbad]

/-- C4 witness: a builder carrying an IO error is left untouched by
Flush. -/
theorem claim_C4_witness :
    Flush testEnv { initRep testOpts [] with status := .ioErr 5 }
      = { initRep testOpts [] with status := .ioErr 5 } :=
  (claim_C4_sticky testEnv { initRep testOpts [] with status := .ioErr 5 } (by decide)).2.1

theorem append_cases (f : File) (bytes : List Nat) :
    ((f.append bytes).1.isOk = true ∧ (f.append bytes).2.written = f.written ++ bytes)
    ∨ ((f.append bytes).1.isOk = false ∧ (f.append bytes).2.written = f.written) := by
  rcases h : f.script with _ | ⟨o, rest⟩
  · left
    constructor <;> simp [File.append, h, Status.isOk]
  · rcases o with _ | e
    · left
      constructor <;> simp [File.append, h, Status.isOk]
    · right
      constructor <;> simp [File.append, h, Status.isOk]

theorem doFlush_written (f : File) : f.doFlush.2.written = f.written := by
  rcases h : f.script with _ | ⟨o, rest⟩
  · simp [File.doFlush, h]
  · rcases o with _ | e <;> simp [File.doFlush, h]

theorem writeRawBlock_cases (env : Env) (c : List Nat) (tg : Nat) (r : Rep) :
    ((WriteRawBlock env c tg r).2.status.isOk = true
      ∧ (WriteRawBlock env c tg r).2.file.written
          = r.file.written ++ c ++ (tg :: encodeFixed32 (crc32cMask (env.crc (c ++ [tg]))))
      ∧ (WriteRawBlock env c tg r).2.offset = r.offset + c.length + kBlockTrailerSize)
    ∨ ((WriteRawBlock env c tg r).2.status.isOk = false
      ∧ (WriteRawBlock env c tg r).2.file.written = r.file.written ++ c
      ∧ (WriteRawBlock env c tg r).2.offset = r.offset)
    ∨ ((WriteRawBlock env c tg r).2.status.isOk = false
      ∧ (WriteRawBlock env c tg r).2.file.written = r.file.written
      ∧ (WriteRawBlock env c tg r).2.offset = r.offset) := by
  rcases append_cases r.file c with ⟨h1, h1w⟩ | ⟨h1, h1w⟩
  · rcases append_cases (r.file.append c).2
        (tg :: encodeFixed32 (crc32cMask (env.crc (c ++ [tg])))) with ⟨h2, h2w⟩ | ⟨h2, h2w⟩
    · left
      simp only [WriteRawBlock]
      rw [if_pos h1, if_pos h2]
      exact ⟨h2, by rw [h2w, h1w], rfl⟩
    · right
      left
      simp only [WriteRawBlock]
      rw [if_pos h1, if_neg (by simp [h2])]
      exact ⟨h2, by rw [h2w, h1w], rfl⟩
  · right
    right
    simp only [WriteRawBlock]
    rw [if_neg (by simp [h1])]
    exact ⟨h1, h1w, rfl⟩

theorem writeRawBlock_keeps_offsetInv (env : Env) (c : List Nat) (tg : Nat) (r : Rep)
    (hok : r.status.isOk = true) (hinv : OffsetInv r) :
    OffsetInv (WriteRawBlock env c tg r).2
    ∧ r.offset ≤ (WriteRawBlock env c tg r).2.offset := by
  have h5 : (tg :: encodeFixed32 (crc32cMask (env.crc (c ++ [tg])))).length
      = kBlockTrailerSize := rfl
  have ho := hinv.1 hok
  have hle := hinv.2
  rcases writeRawBlock_cases env c tg r with ⟨hs, hw, hof⟩ | ⟨hs, hw, hof⟩ | ⟨hs, hw, hof⟩
  · refine ⟨⟨fun _ => ?_, ?_⟩, ?_⟩
    · rw [hof, hw]
      simp only [List.length_append, h5]
      omega
    · rw [hof, hw]
      simp only [List.length_append, h5]
      omega
    · rw [hof]
      omega
  · refine ⟨⟨fun h => ?_, ?_⟩, ?_⟩
    · rw [hs] at h
      exact absurd h (by simp)
    · rw [hof, hw]
      simp only [List.length_append]
      omega
    · rw [hof]
  · refine ⟨⟨fun h => ?_, ?_⟩, ?_⟩
    · rw [hs] at h
      exact absurd h (by simp)
    · rw [hof, hw]
      omega
    · rw [hof]

theorem writeBlockBytes_keeps_offsetInv (env : Env) (raw : List Nat) (r : Rep)
    (hok : r.status.isOk = true) (hinv : OffsetInv r) :
    OffsetInv (writeBlockBytes env raw r).2
    ∧ r.offset ≤ (writeBlockBytes env raw r).2.offset := by
  obtain ⟨c, tg, heq⟩ := writeBlockBytes_eq env raw r
  rw [heq]
  exact writeRawBlock_keeps_offsetInv env c tg r hok hinv

theorem flush_keeps_offsetInv (env : Env) (r : Rep) (hinv : OffsetInv r) :
    OffsetInv (Flush env r) ∧ r.offset ≤ (Flush env r).offset := by
  by_cases hok : r.status.isOk
  · by_cases he : r.data_block.isEmpty
    · rw [flush_of_empty env r he]
      exact ⟨hinv, le_refl _⟩
    · have hwb := writeBlockBytes_keeps_offsetInv env
        (env.blockFinish r.options r.data_block) r hok hinv
      simp only [Flush, hok, Bool.true_eq_false, if_false]
      rw [if_neg he]
      split_ifs with h1 h2 h3
      · refine ⟨⟨fun _ => ?_, ?_⟩, ?_⟩
        · show (writeBlockBytes env (env.blockFinish r.options r.data_block) r).2.offset
            = (writeBlockBytes env
                (env.blockFinish r.options r.data_block) r).2.file.doFlush.2.written.length
          rw [doFlush_written]
          exact hwb.1.1 h1
        · show (writeBlockBytes env (env.blockFinish r.options r.data_block) r).2.offset
            ≤ (writeBlockBytes env
                (env.blockFinish r.options r.data_block) r).2.file.doFlush.2.written.length
          rw [doFlush_written]
          exact le_of_eq (hwb.1.1 h1)
        · exact hwb.2
      · refine ⟨⟨fun _ => ?_, ?_⟩, ?_⟩
        · show (writeBlockBytes env (env.blockFinish r.options r.data_block) r).2.offset
            = (writeBlockBytes env
                (env.blockFinish r.options r.data_block) r).2.file.doFlush.2.written.length
          rw [doFlush_written]
          exact hwb.1.1 h1
        · show (writeBlockBytes env (env.blockFinish r.options r.data_block) r).2.offset
            ≤ (writeBlockBytes env
                (env.blockFinish r.options r.data_block) r).2.file.doFlush.2.written.length
          rw [doFlush_written]
          exact le_of_eq (hwb.1.1 h1)
        · exact hwb.2
      · exact ⟨⟨hwb.1.1, hwb.1.2⟩, hwb.2⟩
      · exact ⟨⟨hwb.1.1, hwb.1.2⟩, hwb.2⟩
  · rw [flush_bad env r (by simpa using hok)]
    exact ⟨hinv, le_refl _⟩

theorem add_keeps_offsetInv (env : Env) (k v : List Nat) (r : Rep) (hinv : OffsetInv r) :
    OffsetInv (Add env k v r) ∧ r.offset ≤ (Add env k v r).offset := by
  by_cases hok : r.status.isOk
  · simp only [Add, hok, Bool.true_eq_false, if_false]
    split_ifs <;>
      first
        | exact ⟨⟨hinv.1, hinv.2⟩, le_refl _⟩
        | exact flush_keeps_offsetInv env _ (by exact ⟨hinv.1, hinv.2⟩)
  · rw [add_bad env k v r (by simpa using hok)]
    exact ⟨hinv, le_refl _⟩

theorem changeOptions_keeps_offsetInv (o : Options) (r : Rep) (hinv : OffsetInv r) :
    OffsetInv ((ChangeOptions o r).2) ∧ r.offset ≤ ((ChangeOptions o r).2).offset := by
  unfold ChangeOptions
  split_ifs <;> exact ⟨⟨hinv.1, hinv.2⟩, le_refl _⟩

theorem step_keeps_offsetInv (env : Env) (r : Rep) (op : BuildOp) (hinv : OffsetInv r) :
    OffsetInv (step env r op) ∧ r.offset ≤ (step env r op).offset := by
  cases op with
  | addOp k v => exact add_keeps_offsetInv env k v r hinv
  | flushOp => exact flush_keeps_offsetInv env r hinv
  | changeOp o => exact changeOptions_keeps_offsetInv o r hinv

theorem runOps_keeps_offsetInv (env : Env) (ops : List BuildOp) (r : Rep)
    (hinv : OffsetInv r) :
    OffsetInv (runOps env r ops) ∧ r.offset ≤ (runOps env r ops).offset := by
  induction ops generalizing r with
  | nil => exact ⟨hinv, le_refl _⟩
  | cons op rest ih =>
      have h1 := step_keeps_offsetInv env r op hinv
      have h2 := ih (step env r op) h1.1
      exact ⟨h2.1, le_trans h1.2 h2.2⟩

theorem finishFilterPhase_keeps_offsetInv (env : Env) (r : Rep) (hinv : OffsetInv r) :
    OffsetInv (finishFilterPhase env r).2 ∧ r.offset ≤ (finishFilterPhase env r).2.offset := by
  unfold finishFilterPhase
  split_ifs with h
  · exact writeRawBlock_keeps_offsetInv env _ 0 r (by
      rcases Bool.and_eq_true_iff.mp h with ⟨h1, _⟩
      exact h1) hinv
  · exact ⟨hinv, le_refl _⟩

theorem finishMetaPhase_keeps_offsetInv (env : Env) (fh : BlockHandle) (r : Rep)
    (hinv : OffsetInv r) :
    OffsetInv (finishMetaPhase env fh r).2
    ∧ r.offset ≤ (finishMetaPhase env fh r).2.offset := by
  simp only [finishMetaPhase]
  split_ifs with h h2
  · exact writeBlockBytes_keeps_offsetInv env _ r h hinv
  · exact writeBlockBytes_keeps_offsetInv env _ r h hinv
  · exact ⟨hinv, le_refl _⟩

theorem finishIndexPhase_keeps_offsetInv (env : Env) (r : Rep) (hinv : OffsetInv r) :
    OffsetInv (finishIndexPhase env r).2 ∧ r.offset ≤ (finishIndexPhase env r).2.offset := by
  simp only [finishIndexPhase]
  split_ifs with h hp
  · set r5 : Rep := { r with
        last_key := env.shortSucc r.last_key,
        index_block := r.index_block ++ [(env.shortSucc r.last_key,
          env.encHandle r.pending_handle)],
        pending_index_entry := false,
        succCount := r.succCount + 1 } with hr5
    have hw := writeBlockBytes_keeps_offsetInv env
      (env.blockFinish r5.index_block_options r5.index_block) r5 h ⟨hinv.1, hinv.2⟩
    exact ⟨⟨hw.1.1, hw.1.2⟩, hw.2⟩
  · have hw := writeBlockBytes_keeps_offsetInv env
      (env.blockFinish r.index_block_options r.index_block) r h hinv
    exact ⟨⟨hw.1.1, hw.1.2⟩, hw.2⟩
  · exact ⟨hinv, le_refl _⟩

theorem finishFooterPhase_keeps_offsetInv (env : Env) (mh ih : BlockHandle) (r : Rep)
    (hinv : OffsetInv r) :
    OffsetInv (finishFooterPhase env mh ih r)
    ∧ r.offset ≤ (finishFooterPhase env mh ih r).offset := by
  simp only [finishFooterPhase]
  split_ifs with h h1
  · have ho := hinv.1 h
    have h1w : (r.file.append (env.footerBytes mh ih)).2.written
        = r.file.written ++ env.footerBytes mh ih := by
      rcases append_cases r.file (env.footerBytes mh ih) with ⟨_, hw⟩ | ⟨hbad, _⟩
      · exact hw
      · rw [h1] at hbad
        exact absurd hbad (by simp)
    refine ⟨⟨fun _ => ?_, ?_⟩, ?_⟩
    · show r.offset + (env.footerBytes mh ih).length
        = (r.file.append (env.footerBytes mh ih)).2.written.length
      rw [h1w]
      simp [List.length_append, ho]
    · show r.offset + (env.footerBytes mh ih).length
        ≤ (r.file.append (env.footerBytes mh ih)).2.written.length
      rw [h1w]
      simp [List.length_append, ho]
    · exact Nat.le_add_right _ _
  · have h1w : (r.file.append (env.footerBytes mh ih)).2.written = r.file.written := by
      rcases append_cases r.file (env.footerBytes mh ih) with ⟨hgood, _⟩ | ⟨_, hw⟩
      · exact absurd hgood h1
      · exact hw
    refine ⟨⟨fun hh => absurd hh h1, ?_⟩, le_refl _⟩
    show r.offset ≤ (r.file.append (env.footerBytes mh ih)).2.written.length
    rw [h1w]
    exact hinv.2
  · exact ⟨hinv, le_refl _⟩

theorem finish_keeps_offsetInv (env : Env) (r : Rep) (hinv : OffsetInv r) :
    OffsetInv (Finish env r).2 ∧ r.offset ≤ (Finish env r).2.offset := by
  have h1 := flush_keeps_offsetInv env r hinv
  have h1c : OffsetInv ({ Flush env r with closed := true } : Rep) := ⟨h1.1.1, h1.1.2⟩
  have h2 := finishFilterPhase_keeps_offsetInv env _ h1c
  have h3 := finishMetaPhase_keeps_offsetInv env
    (finishFilterPhase env { Flush env r with closed := true }).1 _ h2.1
  have h4 := finishIndexPhase_keeps_offsetInv env _ h3.1
  have h5 := finishFooterPhase_keeps_offsetInv env
    (finishMetaPhase env (finishFilterPhase env { Flush env r with closed := true }).1
      (finishFilterPhase env { Flush env r with closed := true }).2).1
    (finishIndexPhase env
      (finishMetaPhase env (finishFilterPhase env { Flush env r with closed := true }).1
        (finishFilterPhase env { Flush env r with closed := true }).2).2).1
    _ h4.1
  exact ⟨h5.1, le_trans h1.2 (le_trans h2.2 (le_trans h3.2 (le_trans h4.2 h5.2)))⟩

/-- C3 counterexample: after an Add and a Flush in which the payload
append succeeds but the trailer append fails, the offset (0) differs from
the number of bytes successfully appended (2), refuting the claim that the
equality holds in that case. -/
theorem claim_C3_counterexample :
    ((runOps testEnv (initRep testOpts [none, some 1]) [.addOp [1] [2], .flushOp]).offset
      = (runOps testEnv (initRep testOpts [none, some 1])
          [.addOp [1] [2], .flushOp]).file.written.length)
    = False :=
  eq_false (by decide)

/-- C3 amended: the offset starts at 0, never exceeds the number of bytes
successfully appended, is monotonically non-decreasing across every
operation and across Finish, and equals the number of bytes successfully
appended whenever the status is OK (after a failed append — in particular
a failed trailer append following a successful payload append — the offset
stays behind the appended bytes). -/
theorem claim_C3_amended (env : Env) (opts : Options) (script : List (Option Nat))
    (ops : List BuildOp) :
    (initRep opts script).offset = 0
    ∧ ((runOps env (initRep opts script) ops).status.isOk = true →
        (runOps env (initRep opts script) ops).offset
          = (runOps env (initRep opts script) ops).file.written.length)
    ∧ (runOps env (initRep opts script) ops).offset
        ≤ (runOps env (initRep opts script) ops).file.written.length
    ∧ ((Finish env (runOps env (initRep opts script) ops)).2.status.isOk = true →
        (Finish env (runOps env (initRep opts script) ops)).2.offset
          = (Finish env (runOps env (initRep opts script) ops)).2.file.written.length)
    ∧ (Finish env (runOps env (initRep opts script) ops)).2.offset
        ≤ (Finish env (runOps env (initRep opts script) ops)).2.file.written.length
    ∧ (runOps env (initRep opts script) ops).offset
        ≤ (Finish env (runOps env (initRep opts script) ops)).2.offset
    ∧ ∀ op, (runOps env (initRep opts script) ops).offset
        ≤ (step env (runOps env (initRep opts script) ops) op).offset := by
  have h0 : OffsetInv (initRep opts script) := ⟨fun _ => rfl, by simp [initRep]⟩
  have h1 := runOps_keeps_offsetInv env ops (initRep opts script) h0
  have h2 := finish_keeps_offsetInv env (runOps env (initRep opts script) ops) h1.1
  exact ⟨rfl, h1.1.1, h1.1.2, h2.1.1, h2.1.2, h2.2,
    fun op => (step_keeps_offsetInv env _ op h1.1).2⟩

/-- C3 amended witness: on a concrete successful run the offset equals the
bytes appended. -/
theorem claim_C3_witness :
    (runOps testEnv (initRep testOpts []) [.addOp [1] [2], .flushOp]).offset
      = (runOps testEnv (initRep testOpts [])
          [.addOp [1] [2], .flushOp]).file.written.length :=
  (claim_C3_amended testEnv testOpts [] [.addOp [1] [2], .flushOp]).2.1 (by decide)

theorem flush_counts (env : Env) (r : Rep) (hok : r.status.isOk = true)
    (hne : r.data_block.isEmpty = false) :
    (Flush env r).index_block = r.index_block
    ∧ (Flush env r).sepCount = r.sepCount
    ∧ (Flush env r).succCount = r.succCount
    ∧ (Flush env r).writtenIndex = r.writtenIndex
    ∧ (Flush env r).data_block = []
    ∧ ((Flush env r).status.isOk = true →
        (Flush env r).pending_index_entry = true
        ∧ (Flush env r).numDataBlocks = r.numDataBlocks + 1) := by
  obtain ⟨f1, f2, f3, f4, f5, f6, f7, f8, f9, f10, f11, f12, f13, f14, f15, f16⟩ :=
    writeBlockBytes_frame env (env.blockFinish r.options r.data_block) r
  simp only [Flush, hok, Bool.true_eq_false, if_false]
  rw [if_neg (by simp [hne])]
  split_ifs with h1 h2 h3 <;>
    refine ⟨f3, f12, f13, f14, rfl, ?_⟩ <;>
      first
        | exact fun _ => ⟨rfl, congrArg (fun x => x + 1) f11⟩
        | exact fun hs => absurd hs h1

theorem add_char (env : Env) (k v : List Nat) (r : Rep) (hok : r.status.isOk = true) :
    ∃ s : Rep,
      (Add env k v r = Flush env s ∨ Add env k v r = s)
      ∧ s.status = r.status
      ∧ s.index_block = (if r.pending_index_entry = true then
            r.index_block ++ [(env.sep r.last_key k, env.encHandle r.pending_handle)]
          else r.index_block)
      ∧ s.pending_index_entry = false
      ∧ s.data_block = r.data_block ++ [(k, v)]
      ∧ s.numDataBlocks = r.numDataBlocks
      ∧ s.sepCount = (if r.pending_index_entry = true then r.sepCount + 1 else r.sepCount)
      ∧ s.succCount = r.succCount := by
  set s : Rep := { r with
      last_key := k,
      index_block := if r.pending_index_entry = true then
          r.index_block ++ [(env.sep r.last_key k, env.encHandle r.pending_handle)]
        else r.index_block,
      pending_index_entry := if r.pending_index_entry = true then false
        else r.pending_index_entry,
      sepCount := if r.pending_index_entry = true then r.sepCount + 1 else r.sepCount,
      filter_keys := if r.filter_present = true then r.filter_keys ++ [k]
        else r.filter_keys,
      num_entries := r.num_entries + 1,
      data_block := r.data_block ++ [(k, v)] } with hs
  have key : Add env k v r =
      (if r.options.block_size ≤ env.sizeEstimate (r.data_block ++ [(k, v)]) then
        Flush env s else s) := by
    rw [hs]
    simp only [Add, hok, Bool.true_eq_false, if_false]
    split_ifs <;> rfl
  refine ⟨s, ?_, rfl, rfl, ?_, rfl, rfl, rfl, rfl⟩
  · by_cases hsize : r.options.block_size ≤ env.sizeEstimate (r.data_block ++ [(k, v)])
    · rw [key, if_pos hsize]
      exact Or.inl rfl
    · rw [key, if_neg hsize]
      exact Or.inr rfl
  · show (if r.pending_index_entry = true then false else r.pending_index_entry) = false
    rcases Bool.eq_false_or_eq_true r.pending_index_entry with h | h <;> simp [h]

theorem flush_keeps_countInv (env : Env) (r : Rep) (hinv : CountInv r) :
    CountInv (Flush env r) := by
  by_cases hok : r.status.isOk
  · by_cases he : r.data_block.isEmpty
    · rw [flush_of_empty env r he]
      exact hinv
    · have hc := flush_counts env r hok (by simpa using he)
      intro hs
      have hf := hinv hok
      have hp : r.pending_index_entry = false := by
        rcases Bool.eq_false_or_eq_true r.pending_index_entry with h | h
        · exact absurd (hf.2.2.2.1 h) (by
            intro hh
            rw [hh] at he
            exact he rfl)
        · exact h
      obtain ⟨hpend2, hnum2⟩ := hc.2.2.2.2.2 hs
      refine ⟨?_, ?_, ?_, ?_, ?_⟩
      · rw [hc.1, hpend2, hnum2]
        have ha := hf.1
        rw [hp] at ha
        simp only [if_false, Bool.false_eq_true] at ha
        simp only [if_true]
        omega
      · rw [hc.2.1, hc.1]
        exact hf.2.1
      · rw [hc.2.2.1]
        exact hf.2.2.1
      · intro _
        exact hc.2.2.2.2.1
      · intro hpf
        rw [hpend2] at hpf
        exact absurd hpf (by simp)
  · rw [flush_bad env r (by simpa using hok)]
    exact hinv

theorem add_keeps_countInv (env : Env) (k v : List Nat) (r : Rep) (hinv : CountInv r) :
    CountInv (Add env k v r) := by
  by_cases hok : r.status.isOk
  · obtain ⟨s, hcase, hst, hidx, hpend, hdata, hnum, hsep, hsucc⟩ := add_char env k v r hok
    have hs : CountInv s := by
      intro hsok
      have hf := hinv (by rw [hst] at hsok; exact hsok)
      refine ⟨?_, ?_, ?_, ?_, ?_⟩
      · rw [hidx, hpend, hnum]
        have ha := hf.1
        rcases Bool.eq_false_or_eq_true r.pending_index_entry with h | h <;>
          rw [h] at ha ⊢ <;> simp at ha ⊢ <;> omega
      · rw [hsep, hidx]
        have hb := hf.2.1
        rcases Bool.eq_false_or_eq_true r.pending_index_entry with h | h <;>
          rw [h] <;> simp [hb]
      · rw [hsucc]
        exact hf.2.2.1
      · intro h
        rw [hpend] at h
        exact absurd h (by simp)
      · intro _ h2
        rw [hdata] at h2
        exact absurd h2 (by simp)
    rcases hcase with h | h
    · rw [h]
      exact flush_keeps_countInv env s hs
    · rw [h]
      exact hs
  · rw [add_bad env k v r (by simpa using hok)]
    exact hinv

theorem changeOptions_keeps_countInv (o : Options) (r : Rep) (hinv : CountInv r) :
    CountInv ((ChangeOptions o r).2) := by
  unfold ChangeOptions
  split_ifs <;> exact fun hs => hinv hs

theorem step_keeps_countInv (env : Env) (r : Rep) (op : BuildOp) (hinv : CountInv r) :
    CountInv (step env r op) := by
  cases op with
  | addOp k v => exact add_keeps_countInv env k v r hinv
  | flushOp => exact flush_keeps_countInv env r hinv
  | changeOp o => exact changeOptions_keeps_countInv o r hinv

theorem runOps_keeps_countInv (env : Env) (ops : List BuildOp) (r : Rep)
    (hinv : CountInv r) : CountInv (runOps env r ops) := by
  induction ops generalizing r with
  | nil => exact hinv
  | cons op rest ih => exact ih (step env r op) (step_keeps_countInv env r op hinv)

theorem initRep_countInv (opts : Options) (script : List (Option Nat)) :
    CountInv (initRep opts script) := by
  intro _
  refine ⟨by simp [initRep], rfl, rfl, ?_, fun _ _ => rfl⟩
  intro h
  exact absurd h (by simp [initRep])

theorem finishFilterPhase_counts (env : Env) (r : Rep) :
    (finishFilterPhase env r).2.index_block = r.index_block
    ∧ (finishFilterPhase env r).2.pending_index_entry = r.pending_index_entry
    ∧ (finishFilterPhase env r).2.numDataBlocks = r.numDataBlocks
    ∧ (finishFilterPhase env r).2.sepCount = r.sepCount
    ∧ (finishFilterPhase env r).2.succCount = r.succCount := by
  unfold finishFilterPhase
  split_ifs with h
  · obtain ⟨f1, f2, f3, f4, f5, f6, f7, f8, f9, f10, f11, f12, f13, f14, f15, f16⟩ :=
      writeRawBlock_frame env (env.filterFinish r.filter_starts r.filter_keys) 0 r
    exact ⟨f3, f1, f11, f12, f13⟩
  · exact ⟨rfl, rfl, rfl, rfl, rfl⟩

theorem finishMetaPhase_counts (env : Env) (fh : BlockHandle) (r : Rep) :
    (finishMetaPhase env fh r).2.index_block = r.index_block
    ∧ (finishMetaPhase env fh r).2.pending_index_entry = r.pending_index_entry
    ∧ (finishMetaPhase env fh r).2.numDataBlocks = r.numDataBlocks
    ∧ (finishMetaPhase env fh r).2.sepCount = r.sepCount
    ∧ (finishMetaPhase env fh r).2.succCount = r.succCount := by
  simp only [finishMetaPhase]
  split_ifs with h h2
  · obtain ⟨f1, f2, f3, f4, f5, f6, f7, f8, f9, f10, f11, f12, f13, f14, f15, f16⟩ :=
      writeBlockBytes_frame env
        (env.blockFinish r.options [(env.filterName, env.encHandle fh)]) r
    exact ⟨f3, f1, f11, f12, f13⟩
  · obtain ⟨f1, f2, f3, f4, f5, f6, f7, f8, f9, f10, f11, f12, f13, f14, f15, f16⟩ :=
      writeBlockBytes_frame env (env.blockFinish r.options []) r
    exact ⟨f3, f1, f11, f12, f13⟩
  · exact ⟨rfl, rfl, rfl, rfl, rfl⟩

theorem finishIndexPhase_char (env : Env) (r : Rep) (hok : r.status.isOk = true) :
    (finishIndexPhase env r).2.writtenIndex
        = (if r.pending_index_entry = true then
            r.index_block ++ [(env.shortSucc r.last_key, env.encHandle r.pending_handle)]
          else r.index_block)
    ∧ (finishIndexPhase env r).2.succCount
        = (if r.pending_index_entry = true then r.succCount + 1 else r.succCount)
    ∧ (finishIndexPhase env r).2.sepCount = r.sepCount
    ∧ (finishIndexPhase env r).2.numDataBlocks = r.numDataBlocks := by
  simp only [finishIndexPhase]
  rw [if_pos hok]
  split_ifs with hp
  · set r5 : Rep := { r with
        last_key := env.shortSucc r.last_key,
        index_block := r.index_block ++ [(env.shortSucc r.last_key,
          env.encHandle r.pending_handle)],
        pending_index_entry := false,
        succCount := r.succCount + 1 } with hr5
    obtain ⟨f1, f2, f3, f4, f5, f6, f7, f8, f9, f10, f11, f12, f13, f14, f15, f16⟩ :=
      writeBlockBytes_frame env (env.blockFinish r5.index_block_options r5.index_block) r5
    refine ⟨?_, ?_, ?_, ?_⟩
    · show r5.index_block = _
      rw [hr5]
    · show (writeBlockBytes env
          (env.blockFinish r5.index_block_options r5.index_block) r5).2.succCount = _
      rw [f13, hr5]
    · show (writeBlockBytes env
          (env.blockFinish r5.index_block_options r5.index_block) r5).2.sepCount = _
      rw [f12, hr5]
    · show (writeBlockBytes env
          (env.blockFinish r5.index_block_options r5.index_block) r5).2.numDataBlocks = _
      rw [f11, hr5]
  · obtain ⟨f1, f2, f3, f4, f5, f6, f7, f8, f9, f10, f11, f12, f13, f14, f15, f16⟩ :=
      writeBlockBytes_frame env (env.blockFinish r.index_block_options r.index_block) r
    exact ⟨rfl, f13, f12, f11⟩

theorem finishFooterPhase_counts (env : Env) (mh ih : BlockHandle) (r : Rep) :
    (finishFooterPhase env mh ih r).writtenIndex = r.writtenIndex
    ∧ (finishFooterPhase env mh ih r).succCount = r.succCount
    ∧ (finishFooterPhase env mh ih r).sepCount = r.sepCount
    ∧ (finishFooterPhase env mh ih r).numDataBlocks = r.numDataBlocks := by
  simp only [finishFooterPhase]
  split_ifs <;> exact ⟨rfl, rfl, rfl, rfl⟩

theorem finishFilterPhase_bad (env : Env) (r : Rep) (h : r.status.isOk = false) :
    finishFilterPhase env r = (⟨0, 0⟩, r) := by
  simp [finishFilterPhase, h]

theorem finishMetaPhase_bad (env : Env) (fh : BlockHandle) (r : Rep)
    (h : r.status.isOk = false) : finishMetaPhase env fh r = (⟨0, 0⟩, r) := by
  simp [finishMetaPhase, h]

theorem finishIndexPhase_bad (env : Env) (r : Rep) (h : r.status.isOk = false) :
    finishIndexPhase env r = (⟨0, 0⟩, r) := by
  simp [finishIndexPhase, h]

theorem finishFooterPhase_bad (env : Env) (mh ih : BlockHandle) (r : Rep)
    (h : r.status.isOk = false) : finishFooterPhase env mh ih r = r := by
  simp [finishFooterPhase, h]

theorem finish_counts_core (env : Env) (r0 : Rep)
    (hq : CountInv (Flush env r0))
    (hdb : (Flush env r0).data_block = [])
    (hfin : (Finish env r0).1 = .ok) :
    (Finish env r0).2.writtenIndex.length = (Finish env r0).2.numDataBlocks
    ∧ ((Finish env r0).2.numDataBlocks = 0 →
        (Finish env r0).2.sepCount = 0 ∧ (Finish env r0).2.succCount = 0)
    ∧ (1 ≤ (Finish env r0).2.numDataBlocks →
        (Finish env r0).2.sepCount = (Finish env r0).2.numDataBlocks - 1
        ∧ (Finish env r0).2.succCount = 1) := by
  have hfeq : Finish env r0 =
      ((finishFooterPhase env
          (finishMetaPhase env
            (finishFilterPhase env { Flush env r0 with closed := true }).1
            (finishFilterPhase env { Flush env r0 with closed := true }).2).1
          (finishIndexPhase env
            (finishMetaPhase env
              (finishFilterPhase env { Flush env r0 with closed := true }).1
              (finishFilterPhase env { Flush env r0 with closed := true }).2).2).1
          (finishIndexPhase env
            (finishMetaPhase env
              (finishFilterPhase env { Flush env r0 with closed := true }).1
              (finishFilterPhase env { Flush env r0 with closed := true }).2).2).2).status,
        finishFooterPhase env
          (finishMetaPhase env
            (finishFilterPhase env { Flush env r0 with closed := true }).1
            (finishFilterPhase env { Flush env r0 with closed := true }).2).1
          (finishIndexPhase env
            (finishMetaPhase env
              (finishFilterPhase env { Flush env r0 with closed := true }).1
              (finishFilterPhase env { Flush env r0 with closed := true }).2).2).1
          (finishIndexPhase env
            (finishMetaPhase env
              (finishFilterPhase env { Flush env r0 with closed := true }).1
              (finishFilterPhase env { Flush env r0 with closed := true }).2).2).2) := rfl
  rw [hfeq] at hfin ⊢
  set q : Rep := { Flush env r0 with closed := true } with hqdef
  set fres := finishFilterPhase env q with hfres
  set mres := finishMetaPhase env fres.1 fres.2 with hmres
  set ires := finishIndexPhase env mres.2 with hires
  set r7 := finishFooterPhase env mres.1 ires.1 ires.2 with hr7
  have h7 : r7.status = .ok := hfin
  have hires_ok : ires.2.status.isOk = true := by
    by_contra hbad
    have heq : r7 = ires.2 := by
      rw [hr7, finishFooterPhase_bad env mres.1 ires.1 ires.2 (by simpa using hbad)]
    rw [heq] at h7
    exact hbad ((status_isOk_iff _).mpr h7)
  have hmres_ok : mres.2.status.isOk = true := by
    by_contra hbad
    have heq : ires = (⟨0, 0⟩, mres.2) := by
      rw [hires, finishIndexPhase_bad env mres.2 (by simpa using hbad)]
    rw [heq] at hires_ok
    exact hbad hires_ok
  have hfres_ok : fres.2.status.isOk = true := by
    by_contra hbad
    have heq : mres = (⟨0, 0⟩, fres.2) := by
      rw [hmres, finishMetaPhase_bad env fres.1 fres.2 (by simpa using hbad)]
    rw [heq] at hmres_ok
    exact hbad hmres_ok
  have hr2ok : q.status.isOk = true := by
    by_contra hbad
    have heq : fres = (⟨0, 0⟩, q) := by
      rw [hfres, finishFilterPhase_bad env q (by simpa using hbad)]
    rw [heq] at hfres_ok
    exact hbad hfres_ok
  have hf1 := hq (show (Flush env r0).status.isOk = true from hr2ok)
  have hA : q.index_block.length + (if q.pending_index_entry = true then 1 else 0)
      = q.numDataBlocks := hf1.1
  have hB : q.sepCount = q.index_block.length := hf1.2.1
  have hC : q.succCount = 0 := hf1.2.2.1
  have hE : q.pending_index_entry = false → q.numDataBlocks = 0 := fun hp =>
    hf1.2.2.2.2 hp hdb
  have hcf := finishFilterPhase_counts env q
  rw [← hfres] at hcf
  have hcm := finishMetaPhase_counts env fres.1 fres.2
  rw [← hmres] at hcm
  have hci := finishIndexPhase_char env mres.2 hmres_ok
  rw [← hires] at hci
  have hcfo := finishFooterPhase_counts env mres.1 ires.1 ires.2
  rw [← hr7] at hcfo
  have hidx_m : mres.2.index_block = q.index_block := by rw [hcm.1, hcf.1]
  have hpend_m : mres.2.pending_index_entry = q.pending_index_entry := by
    rw [hcm.2.1, hcf.2.1]
  have hnum_m : mres.2.numDataBlocks = q.numDataBlocks := by rw [hcm.2.2.1, hcf.2.2.1]
  have hsep_m : mres.2.sepCount = q.sepCount := by rw [hcm.2.2.2.1, hcf.2.2.2.1]
  have hsucc_m : mres.2.succCount = q.succCount := by rw [hcm.2.2.2.2, hcf.2.2.2.2]
  have hwlen : r7.writtenIndex.length = q.index_block.length
      + (if q.pending_index_entry = true then 1 else 0) := by
    rw [hcfo.1, hci.1, hpend_m, hidx_m]
    rcases Bool.eq_false_or_eq_true q.pending_index_entry with h | h <;> rw [h] <;> simp
  have hnum7 : r7.numDataBlocks = q.numDataBlocks := by
    rw [hcfo.2.2.2, hci.2.2.2, hnum_m]
  have hsep7 : r7.sepCount = q.sepCount := by rw [hcfo.2.2.1, hci.2.2.1, hsep_m]
  have hsucc7 : r7.succCount = (if q.pending_index_entry = true then 1 else 0) := by
    rw [hcfo.2.1, hci.2.1, hpend_m, hsucc_m, hC]
  clear_value q fres mres ires r7
  show r7.writtenIndex.length = r7.numDataBlocks
    ∧ (r7.numDataBlocks = 0 → r7.sepCount = 0 ∧ r7.succCount = 0)
    ∧ (1 ≤ r7.numDataBlocks → r7.sepCount = r7.numDataBlocks - 1 ∧ r7.succCount = 1)
  rcases Bool.eq_false_or_eq_true q.pending_index_entry with hb | hb
  · rw [hb] at hA hwlen hsucc7
    simp at hA hwlen hsucc7
    refine ⟨by rw [hwlen, hnum7]; omega, ?_, ?_⟩
    · intro h0
      rw [hnum7] at h0
      constructor
      · rw [hsep7, hB]
        omega
      · rw [hsucc7]
        omega
    · intro h1
      rw [hnum7] at h1
      constructor
      · rw [hsep7, hB, hnum7]
        omega
      · rw [hsucc7]
  · have hN0 : q.numDataBlocks = 0 := hE hb
    rw [hb] at hA hwlen hsucc7
    simp at hA hwlen hsucc7
    refine ⟨by rw [hwlen, hnum7]; omega, ?_, ?_⟩
    · intro h0
      constructor
      · rw [hsep7, hB]
        omega
      · rw [hsucc7]
    · intro h1
      rw [hnum7, hN0] at h1
      exact absurd h1 (by omega)

/-- C5: for every successfully finished build with N data blocks the index
block is written with exactly N entries, the first N - 1 added through the
FindShortestSeparator path in Add and the last one through the
FindShortSuccessor path in Finish while the index entry was still pending
(for N = 0 both paths contribute nothing). -/
theorem claim_C5_index_entries (env : Env) (opts : Options) (script : List (Option Nat))
    (ops : List BuildOp)
    (hfin : (Finish env (runOps env (initRep opts script) ops)).1 = .ok) :
    (Finish env (runOps env (initRep opts script) ops)).2.writtenIndex.length
        = (Finish env (runOps env (initRep opts script) ops)).2.numDataBlocks
    ∧ ((Finish env (runOps env (initRep opts script) ops)).2.numDataBlocks = 0 →
        (Finish env (runOps env (initRep opts script) ops)).2.sepCount = 0
        ∧ (Finish env (runOps env (initRep opts script) ops)).2.succCount = 0)
    ∧ (1 ≤ (Finish env (runOps env (initRep opts script) ops)).2.numDataBlocks →
        (Finish env (runOps env (initRep opts script) ops)).2.sepCount
            = (Finish env (runOps env (initRep opts script) ops)).2.numDataBlocks - 1
        ∧ (Finish env (runOps env (initRep opts script) ops)).2.succCount = 1) := by
  have hinv : CountInv (runOps env (initRep opts script) ops) :=
    runOps_keeps_countInv env ops _ (initRep_countInv opts script)
  by_cases hrok : (runOps env (initRep opts script) ops).status.isOk
  · exact finish_counts_core env _ (flush_keeps_countInv env _ hinv)
      (flush_data_block_empty env _ hrok) hfin
  · rw [finish_bad env _ (by simpa using hrok)] at hfin
    exact absurd ((status_isOk_iff _).mpr hfin) hrok

/-- C5 witness: a one-entry build finishes OK with one data block and one
index entry, contributed by the short-successor path. -/
theorem claim_C5_witness :
    (Finish testEnv (runOps testEnv (initRep testOpts []) [.addOp [1] [2]])).2.writtenIndex.length
        = (Finish testEnv (runOps testEnv (initRep testOpts []) [.addOp [1] [2]])).2.numDataBlocks
    ∧ (Finish testEnv (runOps testEnv (initRep testOpts []) [.addOp [1] [2]])).2.succCount = 1 := by
  have h := claim_C5_index_entries testEnv testOpts [] [.addOp [1] [2]] (by decide)
  exact ⟨h.1, (h.2.2 (by decide)).2⟩

theorem firstSat_some {α : Type} (p : α → Bool) (l : List α) (i : Nat) (d : α)
    (h : firstSat p l = some i) :
    i < l.length ∧ p (l.getD i d) = true ∧ ∀ j, j < i → p (l.getD j d) = false := by
  induction l generalizing i with
  | nil => simp [firstSat] at h
  | cons a rest ih =>
      by_cases hp : p a
      · rw [firstSat, if_pos hp] at h
        obtain rfl : (0 : Nat) = i := Option.some.inj h
        exact ⟨Nat.succ_pos _, hp, fun j hj => absurd hj (by omega)⟩
      · rw [firstSat, if_neg hp] at h
        obtain ⟨i0, h0, hi⟩ := Option.map_eq_some'.mp h
        subst hi
        obtain ⟨hlen, hval, hbefore⟩ := ih i0 h0
        refine ⟨by simpa using hlen, by rw [List.getD_cons_succ]; exact hval, ?_⟩
        intro j hj
        cases j with
        | zero =>
            rw [List.getD_cons_zero]
            exact Bool.not_eq_true _ |>.mp hp
        | succ j0 =>
            rw [List.getD_cons_succ]
            exact hbefore j0 (by omega)

theorem firstSat_none {α : Type} (p : α → Bool) (l : List α) (d : α)
    (h : firstSat p l = none) : ∀ j, j < l.length → p (l.getD j d) = false := by
  induction l with
  | nil =>
      intro j hj
      simp at hj
  | cons a rest ih =>
      by_cases hp : p a
      · rw [firstSat, if_pos hp] at h
        exact absurd h (by simp)
      · rw [firstSat, if_neg hp] at h
        have h0 : firstSat p rest = none := by
          cases hh : firstSat p rest
          · rfl
          · rw [hh] at h
            simp at h
        intro j hj
        cases j with
        | zero =>
            rw [List.getD_cons_zero]
            exact Bool.not_eq_true _ |>.mp hp
        | succ j0 =>
            rw [List.getD_cons_succ]
            exact ih h0 j0 (by simpa using hj)

theorem firstNonemptyFrom_some_aux (t : List (Nat × List (Nat × Nat))) :
    ∀ fuel j m, t.length - j ≤ fuel → firstNonemptyFrom t j = some m →
      j ≤ m ∧ m < t.length ∧ (blockAt t m).isEmpty = false
      ∧ ∀ x, j ≤ x → x < m → (blockAt t x).isEmpty = true := by
  intro fuel
  induction fuel with
  | zero =>
      intro j m hk h
      rw [firstNonemptyFrom] at h
      split_ifs at h with hj he
      all_goals omega
  | succ n ih =>
      intro j m hk h
      rw [firstNonemptyFrom] at h
      split_ifs at h with hj he
      · obtain ⟨h1, h2, h3, h4⟩ := ih (j + 1) m (by omega) h
        refine ⟨by omega, h2, h3, ?_⟩
        intro x hx1 hx2
        rcases Nat.eq_or_lt_of_le hx1 with heq | hlt
        · rw [← heq]
          exact he
        · exact h4 x (by omega) hx2
      · obtain rfl : j = m := Option.some.inj h
        exact ⟨le_refl _, hj, by simpa using he, fun x hx1 hx2 => absurd hx2 (by omega)⟩

theorem firstNonemptyFrom_some (t : List (Nat × List (Nat × Nat))) (j m : Nat)
    (h : firstNonemptyFrom t j = some m) :
    j ≤ m ∧ m < t.length ∧ (blockAt t m).isEmpty = false
    ∧ ∀ x, j ≤ x → x < m → (blockAt t x).isEmpty = true :=
  firstNonemptyFrom_some_aux t (t.length - j) j m (le_refl _) h

theorem firstNonemptyFrom_none_aux (t : List (Nat × List (Nat × Nat))) :
    ∀ fuel j, t.length - j ≤ fuel → firstNonemptyFrom t j = none →
      ∀ x, j ≤ x → x < t.length → (blockAt t x).isEmpty = true := by
  intro fuel
  induction fuel with
  | zero =>
      intro j hk h x hx1 hx2
      omega
  | succ n ih =>
      intro j hk h x hx1 hx2
      rw [firstNonemptyFrom] at h
      split_ifs at h with hj he
      · rcases Nat.eq_or_lt_of_le hx1 with heq | hlt
        · rw [← heq]
          exact he
        · exact ih (j + 1) (by omega) h x (by omega) hx2
      · exact absurd hx2 (by omega)

theorem firstNonemptyFrom_none (t : List (Nat × List (Nat × Nat))) (j : Nat)
    (h : firstNonemptyFrom t j = none) :
    ∀ x, j ≤ x → x < t.length → (blockAt t x).isEmpty = true :=
  firstNonemptyFrom_none_aux t (t.length - j) j (le_refl _) h

theorem skipEmptyForward_of_valid (s : TwoLevelIter) (n : Nat) (h : dataValid s = true) :
    skipEmptyForward s (n + 1) = s := by
  simp [skipEmptyForward, h]

theorem skipEmptyForward_char (t : List (Nat × List (Nat × Nat))) :
    ∀ fuel i s, s.table = t → s.idx = some i → i < t.length →
      dataValid s = false →
      (∀ d, s.data = some d → d.1 = i) →
      t.length + 1 - i ≤ fuel →
      skipEmptyForward s fuel =
        (match firstNonemptyFrom t (i + 1) with
         | some m => { s with idx := some m, data := some (m, some 0) }
         | none => { s with idx := none, data := none }) := by
  intro fuel
  induction fuel with
  | zero =>
      intro i s htab hidx hlen hvalid hdata hfuel
      omega
  | succ n ih =>
      intro i s htab hidx hlen hvalid hdata hfuel
      rw [skipEmptyForward]
      rw [hvalid]
      simp only [Bool.false_eq_true, if_false]
      rw [hidx]
      simp only
      by_cases hnext : i + 1 < s.table.length
      · have hstep : (if (initDataBlock { s with idx := idxNext s.table.length i }).data.isSome
              then dataSeekToFirst (initDataBlock { s with idx := idxNext s.table.length i })
              else initDataBlock { s with idx := idxNext s.table.length i })
            = { s with
                idx := some (i + 1),
                data := some (i + 1,
                  if (blockAt s.table (i + 1)).isEmpty then none else some 0) } := by
          rw [show idxNext s.table.length i = some (i + 1) from if_pos hnext]
          rcases hd : s.data with _ | d
          · simp [initDataBlock, dataSeekToFirst, hd]
          · have hd1 : d.1 = i := hdata d hd
            simp [initDataBlock, dataSeekToFirst, hd, hd1, Nat.ne_of_lt (Nat.lt_succ_self i)]
        rw [hstep]
        by_cases hE : (blockAt s.table (i + 1)).isEmpty
        · rw [if_pos hE]
          have hrec := ih (i + 1)
            { s with idx := some (i + 1), data := some (i + 1, (none : Option Nat)) }
            htab rfl (by rw [htab] at hnext; exact hnext) rfl
            (by intro d hd; cases hd; rfl) (by omega)
          rw [hrec]
          have hfn : firstNonemptyFrom t (i + 1) = firstNonemptyFrom t (i + 1 + 1) := by
            rw [firstNonemptyFrom]
            rw [dif_pos (by rw [htab] at hnext; exact hnext)]
            rw [if_pos (by rw [← htab]; exact hE)]
          rw [hfn]
        · rw [if_neg hE]
          have hvalid2 : dataValid
              { s with
                idx := some (i + 1), data := some (i + 1, some 0) } = true := rfl
          cases n with
          | zero => omega
          | succ n2 =>
              rw [skipEmptyForward_of_valid _ n2 hvalid2]
              have hfn : firstNonemptyFrom t (i + 1) = some (i + 1) := by
                rw [firstNonemptyFrom]
                rw [dif_pos (by rw [htab] at hnext; exact hnext)]
                rw [if_neg (by rw [← htab]; exact hE)]
              rw [hfn]
      · rw [show idxNext s.table.length i = none from if_neg hnext]
        have hstep : (if (initDataBlock { s with idx := (none : Option Nat) }).data.isSome
              then dataSeekToFirst (initDataBlock { s with idx := (none : Option Nat) })
              else initDataBlock { s with idx := (none : Option Nat) })
            = { s with idx := none, data := none } := by
          simp [initDataBlock]
        rw [hstep]
        cases n with
        | zero => omega
        | succ n2 =>
            rw [skipEmptyForward]
            simp only [dataValid, Bool.false_eq_true, if_false]
            have hfn : firstNonemptyFrom t (i + 1) = none := by
              rw [firstNonemptyFrom]
              rw [dif_neg (by rw [htab] at hnext; omega)]
            rw [hfn]

theorem seek_none_char (s : TwoLevelIter) (k : Nat) (hidx : idxSeek s.table k = none) :
    Seek s k = { s with idx := none, data := none } := by
  simp only [Seek, hidx]
  simp [initDataBlock, dataValid, skipEmptyForward]

theorem seek_some_char (s : TwoLevelIter) (k : Nat) (i : Nat)
    (hidx : idxSeek s.table k = some i) :
    Seek s k = skipEmptyForward
      { s with idx := some i, data := some (i, blkSeek (blockAt s.table i) k) }
      (s.table.length + 1) := by
  simp only [Seek, hidx]
  rcases hd : s.data with _ | d
  · simp [initDataBlock, dataSeekTarget, hd]
  · by_cases hd1 : d.1 = i
    · simp [initDataBlock, dataSeekTarget, hd, hd1]
    · simp [initDataBlock, dataSeekTarget, hd, hd1]

/-- C9: Seek runs the index seek, the data-block initialisation, the
in-block seek when a data iterator exists, and the forward empty-block
skip; over a well-formed table it positions the iterator at the smallest
stored key at or past the target, and leaves it invalid exactly when no
stored key is at or past the target. -/
theorem claim_C9_seek (t : List (Nat × List (Nat × Nat))) (hwf : wfTable t) (k : Nat)
    (s0 : TwoLevelIter) (hs : s0.table = t) :
    ((∃ i, i < t.length ∧ ∃ p, p < (blockAt t i).length ∧ k ≤ keyAt t i p) →
        dataValid (Seek s0 k) = true
        ∧ (∃ i, i < t.length ∧ ∃ p, p < (blockAt t i).length
            ∧ currentKey (Seek s0 k) = keyAt t i p)
        ∧ k ≤ currentKey (Seek s0 k)
        ∧ (∀ i, i < t.length → ∀ p, p < (blockAt t i).length → k ≤ keyAt t i p →
            currentKey (Seek s0 k) ≤ keyAt t i p))
    ∧ ((∀ i, i < t.length → ∀ p, p < (blockAt t i).length → keyAt t i p < k) →
        dataValid (Seek s0 k) = false) := by
  obtain ⟨hwf1, hwf2, hwf3⟩ := hwf
  rcases hI : idxSeek t k with _ | i
  · have hseek : Seek s0 k = { s0 with idx := none, data := none } :=
      seek_none_char s0 k (by rw [hs]; exact hI)
    have hvalid : dataValid (Seek s0 k) = false := by
      rw [hseek]
      rfl
    have hI2 : firstSat (fun b => decide (k ≤ b.1)) t = none := hI
    have hsmall : ∀ i2, i2 < t.length → ∀ p, p < (blockAt t i2).length →
        keyAt t i2 p < k := by
      intro i2 hi2 p hp
      have hd := firstSat_none (fun b => decide (k ≤ b.1)) t (0, []) hI2 i2 hi2
      have hs2 : ¬ k ≤ sepAt t i2 := of_decide_eq_false hd
      have h1 := hwf1 i2 hi2 p hp
      omega
    constructor
    · rintro ⟨i2, hi2, p, hp, hk⟩
      exact absurd hk (by have := hsmall i2 hi2 p hp; omega)
    · intro _
      exact hvalid
  · have hI2 : firstSat (fun b => decide (k ≤ b.1)) t = some i := hI
    obtain ⟨hilen, hisep, hiprev⟩ :=
      firstSat_some (fun b => decide (k ≤ b.1)) t i (0, []) hI2
    have hksep : k ≤ sepAt t i := of_decide_eq_true hisep
    have hprev : ∀ j, j < i → sepAt t j < k := by
      intro j hj
      have h2 : ¬ k ≤ sepAt t j := of_decide_eq_false (hiprev j hj)
      omega
    have hpipe : Seek s0 k = skipEmptyForward
        { s0 with idx := some i, data := some (i, blkSeek (blockAt t i) k) }
        (t.length + 1) := by
      have h := seek_some_char s0 k i (by rw [hs]; exact hI)
      rw [h, hs]
    rcases hB : blkSeek (blockAt t i) k with _ | p
    · have hB2 : firstSat (fun e => decide (k ≤ e.1)) (blockAt t i) = none := hB
      have hnone : ∀ q, q < (blockAt t i).length → keyAt t i q < k := by
        intro q hq
        have hq2 : ¬ k ≤ keyAt t i q := of_decide_eq_false (firstSat_none
          (fun e => decide (k ≤ e.1)) (blockAt t i) (0, 0) hB2 q hq)
        omega
      have hskip := skipEmptyForward_char t (t.length + 1) i
        { s0 with idx := some i, data := some (i, (none : Option Nat)) }
        hs rfl hilen rfl (by intro d hd; cases hd; rfl) (by omega)
      have hseek : Seek s0 k =
          (match firstNonemptyFrom t (i + 1) with
           | some m => { s0 with idx := some m, data := some (m, some 0) }
           | none => { s0 with idx := none, data := none }) := by
        rw [hpipe, hB]
        exact hskip
      rcases hF : firstNonemptyFrom t (i + 1) with _ | m
      · have hseek2 : Seek s0 k = { s0 with idx := none, data := none } := by
          rw [hseek, hF]
        have hvalid : dataValid (Seek s0 k) = false := by
          rw [hseek2]
          rfl
        have hempty := firstNonemptyFrom_none t (i + 1) hF
        constructor
        · rintro ⟨i2, hi2, p2, hp2, hk2⟩
          rcases Nat.lt_trichotomy i2 i with hlt | heq | hgt
          · have h1 := hwf1 i2 hi2 p2 hp2
            have h2 := hprev i2 hlt
            omega
          · subst heq
            have := hnone p2 hp2
            omega
          · have he := hempty i2 (by omega) hi2
            rw [List.isEmpty_iff.mp he] at hp2
            simp at hp2
        · intro _
          exact hvalid
      · obtain ⟨hm1, hm2, hm3, hm4⟩ := firstNonemptyFrom_some t (i + 1) m hF
        have hseek2 : Seek s0 k = { s0 with idx := some m, data := some (m, some 0) } := by
          rw [hseek, hF]
        have hvalid : dataValid (Seek s0 k) = true := by
          rw [hseek2]
          rfl
        have hmlen : 0 < (blockAt t m).length := by
          rcases hnil : blockAt t m with _ | ⟨e, rest⟩
          · rw [hnil] at hm3
            simp at hm3
          · simp
        have hkey : currentKey (Seek s0 k) = keyAt t m 0 := by
          rw [hseek2]
          show keyAt s0.table m 0 = keyAt t m 0
          rw [hs]
        have hklow : k ≤ keyAt t m 0 := by
          have h1 := hwf2 m hm2 i (by omega) 0 hmlen
          omega
        have hmin : ∀ i2, i2 < t.length → ∀ p2, p2 < (blockAt t i2).length →
            k ≤ keyAt t i2 p2 → keyAt t m 0 ≤ keyAt t i2 p2 := by
          intro i2 hi2 p2 hp2 hk2
          rcases Nat.lt_trichotomy i2 m with hlt | heq | hgt
          · rcases Nat.lt_trichotomy i2 i with hlt2 | heq2 | hgt2
            · have h1 := hwf1 i2 hi2 p2 hp2
              have h2 := hprev i2 hlt2
              omega
            · subst heq2
              have := hnone p2 hp2
              omega
            · have he := hm4 i2 (by omega) hlt
              rw [List.isEmpty_iff.mp he] at hp2
              simp at hp2
          · subst heq
            rcases Nat.eq_zero_or_pos p2 with hz | hpos
            · rw [hz]
            · have := hwf3 i2 hi2 p2 hp2 0 hpos
              omega
          · have h1 := hwf1 m hm2 0 hmlen
            have h2 := hwf2 i2 hi2 m hgt p2 hp2
            omega
        constructor
        · intro _
          refine ⟨hvalid, ⟨m, hm2, 0, hmlen, hkey⟩, by rw [hkey]; exact hklow, ?_⟩
          intro i2 hi2 p2 hp2 hk2
          rw [hkey]
          exact hmin i2 hi2 p2 hp2 hk2
        · intro hall
          exact absurd hklow (by have := hall m hm2 0 hmlen; omega)
    · have hB2 : firstSat (fun e => decide (k ≤ e.1)) (blockAt t i) = some p := hB
      obtain ⟨hplen, hpk, hpprev⟩ :=
        firstSat_some (fun e => decide (k ≤ e.1)) (blockAt t i) p (0, 0) hB2
      have hkp : k ≤ keyAt t i p := of_decide_eq_true hpk
      have hqprev : ∀ q, q < p → keyAt t i q < k := by
        intro q hq
        have hq2 : ¬ k ≤ keyAt t i q := of_decide_eq_false (hpprev q hq)
        omega
      have hseek : Seek s0 k = { s0 with idx := some i, data := some (i, some p) } := by
        rw [hpipe, hB]
        exact skipEmptyForward_of_valid _ t.length rfl
      have hkey : currentKey (Seek s0 k) = keyAt t i p := by
        rw [hseek]
        show keyAt s0.table i p = keyAt t i p
        rw [hs]
      have hvalid : dataValid (Seek s0 k) = true := by
        rw [hseek]
        rfl
      have hmin : ∀ i2, i2 < t.length → ∀ p2, p2 < (blockAt t i2).length →
          k ≤ keyAt t i2 p2 → keyAt t i p ≤ keyAt t i2 p2 := by
        intro i2 hi2 p2 hp2 hk2
        rcases Nat.lt_trichotomy i2 i with hlt | heq | hgt
        · have h1 := hwf1 i2 hi2 p2 hp2
          have h2 := hprev i2 hlt
          omega
        · subst heq
          rcases Nat.lt_trichotomy p2 p with hplt | hpeq | hpgt
          · have := hqprev p2 hplt
            omega
          · rw [hpeq]
          · have := hwf3 i2 hi2 p2 hp2 p hpgt
            omega
        · have h1 := hwf1 i hilen p hplen
          have h2 := hwf2 i2 hi2 i hgt p2 hp2
          omega
      constructor
      · intro _
        refine ⟨hvalid, ⟨i, hilen, p, hplen, hkey⟩, by rw [hkey]; exact hkp, ?_⟩
        intro i2 hi2 p2 hp2 hk2
        rw [hkey]
        exact hmin i2 hi2 p2 hp2 hk2
      · intro hall
        exact absurd hkp (by have := hall i hilen p hplen; omega)

/-- C9 witness: over a concrete two-block table, seeking 6 lands on the
stored key 7, the smallest one at or past 6. -/
theorem claim_C9_witness :
    dataValid (Seek ⟨testTable, none, none⟩ 6) = true
    ∧ 6 ≤ currentKey (Seek ⟨testTable, none, none⟩ 6)
    ∧ currentKey (Seek ⟨testTable, none, none⟩ 6) = 7 := by
  have h := (claim_C9_seek testTable (by
      refine ⟨?_, ?_, ?_⟩ <;> decide) 6 ⟨testTable, none, none⟩ rfl).1 (by decide)
  refine ⟨h.1, h.2.2.1, ?_⟩
  obtain ⟨i, hi, p, hp, hkey⟩ := h.2.1
  decide

end LevelDB
